import Mathlib

/-!
# kvserver: request handling, response framing and worker dispatch

A shallow embedding of `src/http_server.cpp` (with the parts of `src/db.hpp`
it calls).  A `std::string` is a list of characters, one `Char` per byte.
The socket of one connection is the list of bytes that `recv` will still
deliver (after which `recv` returns `<= 0`) together with the list of
strings handed to `writeAll`.  Calls on the cache and on the backing store
are recorded in a trace, so that "is called", "is not called" and "is called
before" are statements about that trace.
-/

namespace KV

/-- A `std::string`: a sequence of bytes, one `Char` each. -/
abbrev Str := List Char

/-! ## Decimal output (`std::to_string`, `operator<<` on integers) -/

/-- The character of one decimal digit. -/
def digitChar (d : Nat) : Char := Char.ofNat (48 + d)

/-- Decimal digits of `n`, most significant first, pushed in front of `acc`;
`fuel` bounds the number of digits produced. -/
def decAux : Nat → Nat → Str → Str
  | 0, _, acc => acc
  | fuel + 1, n, acc =>
    if n < 10 then digitChar n :: acc
    else decAux fuel (n / 10) (digitChar (n % 10) :: acc)

/-- Decimal text of an unsigned value (`o << payload.size()`). -/
def size_to_string (n : Nat) : Str := decAux (n + 1) n []

/-- Decimal text of an `int` (`std::to_string(status)`, `o << status`). -/
def to_string (i : Int) : Str :=
  if i < 0 then '-' :: size_to_string i.natAbs else size_to_string i.natAbs

/-! ## Responses (`http_json`, `http_empty`, the 405 literal) -/

/-- The function `http_json(status, payload)` of `http_server.cpp`. -/
def http_json (status : Int) (payload : Str) : Str :=
  "HTTP/1.1 ".data ++ to_string status ++ "\r\n".data
    ++ "Content-Type: application/json\r\n".data
    ++ "Content-Length: ".data ++ size_to_string payload.length ++ "\r\n\r\n".data
    ++ payload

/-- The function `http_empty(status)` of `http_server.cpp`. -/
def http_empty (status : Int) : Str :=
  "HTTP/1.1 ".data ++ to_string status ++ "\r\nContent-Length:0\r\n\r\n".data

/-- The literal written by `handleClient` for an unsupported method. -/
def http_405 : Str := "HTTP/1.1 405 Method Not Allowed\r\nContent-Length:0\r\n\r\n".data

/-! ## The cache -/

/-- Modelled from the spec: `lru_cache.hpp` (class `LRUCache`) is not among the
sources.  Section 4.3 of the specification: a mapping of fixed capacity `N`
kept in recency order (most recently used first); `get` promotes on a hit and
changes nothing on a miss; `set` inserts or overwrites, makes the entry the
most recently used one and evicts the least recently used entry when the
capacity is exceeded; `erase` removes the entry if present. -/
structure LRUCache where
  capacity : Nat
  entries : List (Str × Str)
deriving DecidableEq, Repr

namespace LRUCache

/-- The entries other than the one of `key`. -/
def without (c : LRUCache) (key : Str) : List (Str × Str) :=
  c.entries.filter (fun e => !(e.1 == key))

/-- Modelled from the spec: `get(key) -> value, found`. -/
def get (c : LRUCache) (key : Str) : Option Str × LRUCache :=
  match c.entries.lookup key with
  | some v => (some v, { c with entries := (key, v) :: c.without key })
  | none => (none, c)

/-- Modelled from the spec: `set(key, value)`. -/
def set (c : LRUCache) (key val : Str) : LRUCache :=
  { c with entries := ((key, val) :: c.without key).take c.capacity }

/-- Modelled from the spec: `erase(key)`. -/
def erase (c : LRUCache) (key : Str) : LRUCache :=
  { c with entries := c.without key }

end LRUCache

/-! ## The backing store (`db.hpp`) -/

/-- Outcome of `Database::get(key, out, found)`: `error` is `return false`,
`notFound` is `return true` with `found = false`, `found v` is `return true`
with `found = true` and `out = v`. -/
inductive GetResult where
  | error
  | notFound
  | found (v : Str)
deriving DecidableEq, Repr

/-- Outcome of `Database::del(key, existed)`: `error` is `return false`,
`existed b` is `return true` with `existed = b`. -/
inductive DelResult where
  | error
  | existed (b : Bool)
deriving DecidableEq, Repr

/-- The three calls of `class Database` that the server uses, over a store
state `σ` (the MySQL server behind `db.cpp`). -/
structure Database (σ : Type) where
  get : σ → Str → GetResult × σ
  upsert : σ → Str → Str → Bool × σ
  del : σ → Str → DelResult × σ

/-! ## Server state and trace -/

/-- One call on the cache or on the backing store. -/
inductive Call where
  | cacheGet (key : Str)
  | cacheSet (key val : Str)
  | cacheErase (key : Str)
  | dbGet (key : Str)
  | dbUpsert (key val : Str)
  | dbDel (key : Str)
deriving DecidableEq, Repr

/-- What one request can observe and change: the cache `cache_`, the store
behind `db_`, the calls made so far (oldest first), the bytes `recv` will still
deliver on the connection, the strings given to `writeAll` (oldest first) and
whether `closeFd` was called. -/
structure Server (σ : Type) where
  cache_ : LRUCache
  db_ : σ
  trace : List Call
  input : Str
  sent : List Str
  closed : Bool

namespace Server

variable {σ : Type}

/-- The call `writeAll(fd, s)`. -/
def writeAll (s : Server σ) (msg : Str) : Server σ :=
  { s with sent := s.sent ++ [msg] }

/-- The call `closeFd(fd)`. -/
def closeFd (s : Server σ) : Server σ :=
  { s with closed := true }

/-- The call `cache_.get(key, val)`: the value on a hit, and the state afterwards. -/
def cacheGet (s : Server σ) (key : Str) : Option Str × Server σ :=
  ((s.cache_.get key).1,
   { s with cache_ := (s.cache_.get key).2, trace := s.trace ++ [Call.cacheGet key] })

/-- The call `cache_.set(key, val)`. -/
def cacheSet (s : Server σ) (key val : Str) : Server σ :=
  { s with cache_ := s.cache_.set key val, trace := s.trace ++ [Call.cacheSet key val] }

/-- The call `cache_.erase(key)`. -/
def cacheErase (s : Server σ) (key : Str) : Server σ :=
  { s with cache_ := s.cache_.erase key, trace := s.trace ++ [Call.cacheErase key] }

/-- The call `db_->get(key, dbval, ok)`. -/
def dbGet (D : Database σ) (s : Server σ) (key : Str) : GetResult × Server σ :=
  ((D.get s.db_ key).1,
   { s with db_ := (D.get s.db_ key).2, trace := s.trace ++ [Call.dbGet key] })

/-- The call `db_->upsert(key, val)`. -/
def dbUpsert (D : Database σ) (s : Server σ) (key val : Str) : Bool × Server σ :=
  ((D.upsert s.db_ key val).1,
   { s with db_ := (D.upsert s.db_ key val).2, trace := s.trace ++ [Call.dbUpsert key val] })

/-- The call `db_->del(key, existed)`. -/
def dbDel (D : Database σ) (s : Server σ) (key : Str) : DelResult × Server σ :=
  ((D.del s.db_ key).1,
   { s with db_ := (D.del s.db_ key).2, trace := s.trace ++ [Call.dbDel key] })

end Server

/-! ## Request handlers -/

variable {σ : Type}

/-- The test `path.rfind("/kv/", 0) == 0`: the path starts with `/kv/`. -/
def starts_with_kv (path : Str) : Bool := path.take 4 == "/kv/".data

/-- The handler `HTTPServer::handleGET`. -/
def handleGET (D : Database σ) (path : Str) (s : Server σ) : Server σ :=
  if !starts_with_kv path then s.writeAll (http_empty 404)
  else
    let key := path.drop 4
    if key.isEmpty then s.writeAll (http_empty 404)
    else
      match s.cacheGet key with
      | (some val, s1) => s1.writeAll (http_json 200 ("\x7b\"value\":\"".data ++ val ++ "\"\x7d".data))
      | (none, s1) =>
        match s1.dbGet D key with
        | (GetResult.error, s2) => s2.writeAll (http_empty 500)
        | (GetResult.notFound, s2) => s2.writeAll (http_empty 404)
        | (GetResult.found dbval, s2) =>
          (s2.cacheSet key dbval).writeAll
            (http_json 200 ("\x7b\"value\":\"".data ++ dbval ++ "\"\x7d".data))

/-- The handler `HTTPServer::handleDELETE`. -/
def handleDELETE (D : Database σ) (path : Str) (s : Server σ) : Server σ :=
  if !starts_with_kv path then s.writeAll (http_empty 404)
  else
    let key := path.drop 4
    if key.isEmpty then s.writeAll (http_empty 404)
    else
      match s.dbDel D key with
      | (DelResult.error, s1) => s1.writeAll (http_empty 500)
      | (DelResult.existed false, s1) => s1.writeAll (http_empty 404)
      | (DelResult.existed true, s1) => (s1.cacheErase key).writeAll (http_empty 204)

/-! ## What ends the process -/

/-- What can end the process inside `handleClient`: the exceptions the
standard library throws there, which nothing in the server catches
(`std::terminate`), and the exhaustion of the worker thread's stack inside
`std::regex_search` (a segmentation fault). -/
inductive Exn where
  | invalid_argument
  | out_of_range
  | length_error
  | stack_overflow
deriving DecidableEq, Repr

/-! ## The regular expressions of `extract_json_key_value`

`std::regex` (ECMAScript grammar) is a backtracking matcher: `regex_search`
tries the start positions from left to right and, at one start position,
every quantifier is greedy and gives characters back one at a time when the
rest of the pattern fails.  The two patterns of the source only use literal
characters, `\s*`, `([^"]+)` and `([^"]*)`; `Item` is that fragment.

The matcher of the library is recursive: every pattern element it enters and
every character a quantifier takes is one more nested call, and the calls
only return when the attempt at this start position is over.  The functions
below carry the number of nested calls the stack of the thread still has room
for; where it is used up the search does not return (`Search.overflow`).  How
many calls fit depends on the size of the stack and on the build of the
library, so that number (`stack`) is a parameter throughout. -/

/-- The function `isspace` in the "C" locale, which is what `\s` matches. -/
def isspace (c : Char) : Bool :=
  c == ' ' || c == '\t' || c == '\n' || c == '\x0b' || c == '\x0c' || c == '\r'

/-- The class `[^"]`. -/
def notQuote (c : Char) : Bool := !(c == '"')

/-- One element of a pattern. -/
inductive Item where
  | chr (c : Char)
  | star (p : Char → Bool)
  | capStar (p : Char → Bool)
  | capPlus (p : Char → Bool)

/-- A literal string as a pattern. -/
def lit (s : Str) : List Item := s.map Item.chr

/-- How one attempt of the matcher ends: the stack is used up, the pattern
does not match, or it matches with a result. -/
inductive Search (R : Type) where
  | overflow
  | noMatch
  | matched (m : R)
deriving DecidableEq, Repr

/-- Greedy `x*` followed by the continuation `k`, with room for `d` nested
calls: take one more character of the class if possible, and fall back to
stopping here when the rest fails. -/
def starK {R : Type} (p : Char → Bool) (k : Nat → Str → Search R) : Nat → Str → Search R
  | 0, _ => Search.overflow
  | d + 1, [] => k d []
  | d + 1, x :: xs =>
    if p x then
      match starK p k d xs with
      | Search.noMatch => k d (x :: xs)
      | r => r
    else k d (x :: xs)

/-- Greedy capturing `(x*)`: as `starK`, and the characters taken so far
(`acc`) are handed to the continuation as the submatch. -/
def groupK {R : Type} (p : Char → Bool) (k : Str → Nat → Str → Search R) :
    Str → Nat → Str → Search R
  | _, 0, _ => Search.overflow
  | acc, d + 1, [] => k acc d []
  | acc, d + 1, x :: xs =>
    if p x then
      match groupK p k (acc ++ [x]) d xs with
      | Search.noMatch => k acc d (x :: xs)
      | r => r
    else k acc d (x :: xs)

/-- Match a pattern at the start of the input with room for `d` nested calls;
the result is the list of submatches `m[1], m[2], ...`. -/
def matchHere : List Item → List Str → Nat → Str → Search (List Str)
  | [], caps, _, _ => Search.matched caps
  | Item.chr c :: r, caps, d, s =>
    match d, s with
    | 0, _ => Search.overflow
    | d + 1, x :: xs => if x = c then matchHere r caps d xs else Search.noMatch
    | _ + 1, [] => Search.noMatch
  | Item.star p :: r, caps, d, s => starK p (matchHere r caps) d s
  | Item.capStar p :: r, caps, d, s =>
    groupK p (fun cap d1 rest => matchHere r (caps ++ [cap]) d1 rest) [] d s
  | Item.capPlus p :: r, caps, d, s =>
    match d, s with
    | 0, _ => Search.overflow
    | d + 1, x :: xs =>
      if p x then groupK p (fun cap d1 rest => matchHere r (caps ++ [cap]) d1 rest) [x] d xs
      else Search.noMatch
    | _ + 1, [] => Search.noMatch

/-- The call `std::regex_search(body, m, re)` on a stack with room for `stack`
nested calls: the match at the leftmost start position that has one.  The
start positions are tried in a loop, each attempt with the whole room. -/
def regex_search (re : List Item) (stack : Nat) : Str → Search (List Str)
  | [] => matchHere re [] stack []
  | c :: cs =>
    match matchHere re [] stack (c :: cs) with
    | Search.noMatch => regex_search re stack cs
    | r => r

/-- The pattern `"key"\s*:\s*"([^"]+)"\s*,\s*"value"\s*:\s*"([^"]*)"`. -/
def re : List Item :=
  lit "\"key\"".data ++ [Item.star isspace, Item.chr ':', Item.star isspace,
    Item.chr '"', Item.capPlus notQuote, Item.chr '"',
    Item.star isspace, Item.chr ',', Item.star isspace]
  ++ lit "\"value\"".data ++ [Item.star isspace, Item.chr ':', Item.star isspace,
    Item.chr '"', Item.capStar notQuote, Item.chr '"']

/-- The pattern `"value"\s*:\s*"([^"]*)"\s*,\s*"key"\s*:\s*"([^"]+)"`. -/
def re2 : List Item :=
  lit "\"value\"".data ++ [Item.star isspace, Item.chr ':', Item.star isspace,
    Item.chr '"', Item.capStar notQuote, Item.chr '"',
    Item.star isspace, Item.chr ',', Item.star isspace]
  ++ lit "\"key\"".data ++ [Item.star isspace, Item.chr ':', Item.star isspace,
    Item.chr '"', Item.capPlus notQuote, Item.chr '"']

/-- The function `extract_json_key_value(body, key, val)` on a stack with room
for `stack` nested matcher calls: `some (key, val)` when it returns `true`,
`none` when it returns `false`, and an error when a search does not return.
A successful search has `m.size() == 3`, that is two submatches. -/
def extract_json_key_value (stack : Nat) (body : Str) : Except Exn (Option (Str × Str)) :=
  match regex_search re stack body with
  | Search.overflow => Except.error Exn.stack_overflow
  | Search.matched [key, val] => Except.ok (some (key, val))
  | _ =>
    match regex_search re2 stack body with
    | Search.overflow => Except.error Exn.stack_overflow
    | Search.matched [val, key] => Except.ok (some (key, val))
    | _ => Except.ok none

/-- The handler `HTTPServer::handlePOST`, on a stack with room for `stack`
nested matcher calls. -/
def handlePOST (stack : Nat) (D : Database σ) (path : Str) (body : Str) (s : Server σ) :
    Except Exn (Server σ) :=
  if path != "/kv".data then Except.ok (s.writeAll (http_empty 404))
  else
    match extract_json_key_value stack body with
    | Except.error e => Except.error e
    | Except.ok none => Except.ok (s.writeAll (http_empty 400))
    | Except.ok (some (key, val)) =>
      if key.isEmpty then Except.ok (s.writeAll (http_empty 400))
      else
        match (s.cacheSet key val).dbUpsert D key val with
        | (false, s2) => Except.ok (s2.writeAll (http_empty 500))
        | (true, s2) => Except.ok (s2.writeAll (http_empty 200))

/-! ## The matcher on an unlimited stack

The same matcher without the bound on nested calls.  It is what the bounded
matcher computes whenever the stack is deep enough (shown below), and is only
used to reason about the bounded one. -/

/-- Greedy `x*` on an unlimited stack. -/
def starKIdeal {R : Type} (p : Char → Bool) (k : Str → Option R) : Str → Option R
  | [] => k []
  | x :: xs =>
    if p x then (starKIdeal p k xs).orElse (fun _ => k (x :: xs)) else k (x :: xs)

/-- Greedy capturing `(x*)` on an unlimited stack. -/
def groupKIdeal {R : Type} (p : Char → Bool) (k : Str → Str → Option R) :
    Str → Str → Option R
  | acc, [] => k acc []
  | acc, x :: xs =>
    if p x then (groupKIdeal p k (acc ++ [x]) xs).orElse (fun _ => k acc (x :: xs))
    else k acc (x :: xs)

/-- Match a pattern at the start of the input on an unlimited stack. -/
def matchHereIdeal : List Item → List Str → Str → Option (List Str)
  | [], caps, _ => some caps
  | Item.chr c :: r, caps, s =>
    match s with
    | x :: xs => if x = c then matchHereIdeal r caps xs else none
    | [] => none
  | Item.star p :: r, caps, s => starKIdeal p (matchHereIdeal r caps) s
  | Item.capStar p :: r, caps, s =>
    groupKIdeal p (fun cap rest => matchHereIdeal r (caps ++ [cap]) rest) [] s
  | Item.capPlus p :: r, caps, s =>
    match s with
    | x :: xs =>
      if p x then groupKIdeal p (fun cap rest => matchHereIdeal r (caps ++ [cap]) rest) [x] xs
      else none
    | [] => none

/-- Leftmost search on an unlimited stack. -/
def regexSearchIdeal (re : List Item) : Str → Option (List Str)
  | [] => matchHereIdeal re [] []
  | c :: cs => (matchHereIdeal re [] (c :: cs)).orElse (fun _ => regexSearchIdeal re cs)

/-- The result of `extract_json_key_value` on an unlimited stack. -/
def extractIdeal (body : Str) : Option (Str × Str) :=
  match regexSearchIdeal re body with
  | some [key, val] => some (key, val)
  | _ =>
    match regexSearchIdeal re2 body with
    | some [val, key] => some (key, val)
    | _ => none

/-- A result on an unlimited stack, as the outcome of a search that
returned. -/
def Search.ofOption {R : Type} : Option R → Search R
  | none => Search.noMatch
  | some m => Search.matched m

/-! ## Reading one request (`readLine`, `readN`, `handleClient`) -/

/-- The loop of `readLine` with the characters of the line read so far: a carriage return
is skipped, a line feed ends the line, and the end of the stream before a line
feed gives `false` (here `none`). -/
def readLineAux (line : Str) : Str → Option (Str × Str)
  | [] => none
  | c :: rest =>
    if c = '\r' then readLineAux line rest
    else if c = '\n' then some (line, rest)
    else readLineAux (line ++ [c]) rest

/-- The function `HTTPServer::readLine(fd, line)`: the line and the bytes left on the
stream. -/
def readLine (input : Str) : Option (Str × Str) := readLineAux [] input

/-- One `rl >> token` on the request line: skip white space, then take the
characters up to the next white space.  Gives the token and what is left. -/
def readToken (s : Str) : Str × Str :=
  let s1 := s.dropWhile isspace
  (s1.takeWhile (fun c => !isspace c), s1.dropWhile (fun c => !isspace c))

/-- The extraction `rl >> method >> path >> version`: a token that cannot be extracted is
left empty, and so are the ones after it. -/
def requestLine (line : Str) : Str × Str × Str :=
  let m := readToken line
  let p := readToken m.2
  let v := readToken p.2
  (m.1, p.1, v.1)

/-- The function `::tolower` in the "C" locale. -/
def tolower (c : Char) : Char :=
  if 65 ≤ c.toNat ∧ c.toNat ≤ 90 then Char.ofNat (c.toNat + 32) else c

/-- A decimal digit. -/
def isdigit (c : Char) : Bool := decide (48 ≤ c.toNat) && decide (c.toNat ≤ 57)

/-- The constant `ULONG_MAX` for a 64-bit `unsigned long`. -/
def ULONG_MAX : Nat := 2 ^ 64 - 1

/-- The function `std::stoul(val)` (base 10, through `strtoul`): leading white space and
one sign are skipped, then the longest run of digits is converted.  No digit
throws `std::invalid_argument`, a value above `ULONG_MAX` throws
`std::out_of_range`, and a minus sign negates the value in `unsigned long`. -/
def stoul (val : Str) : Except Exn Nat :=
  let s1 := val.dropWhile isspace
  let neg := s1.head? == some '-'
  let s2 := if s1.head? == some '-' || s1.head? == some '+' then s1.drop 1 else s1
  let ds := s2.takeWhile isdigit
  if ds.isEmpty then Except.error Exn.invalid_argument
  else
    let v := ds.foldl (fun a c => 10 * a + (c.toNat - 48)) 0
    if v > ULONG_MAX then Except.error Exn.out_of_range
    else Except.ok (if neg then (ULONG_MAX + 1 - v) % (ULONG_MAX + 1) else v)

/-- The `ltrim` lambda: `s.erase(0, s.find_first_not_of(" \t"))`. -/
def ltrim (s : Str) : Str := s.dropWhile (fun c => c == ' ' || c == '\t')

/-- The `rtrim` lambda: `s.erase(s.find_last_not_of(" \t") + 1)`. -/
def rtrim (s : Str) : Str := (s.reverse.dropWhile (fun c => c == ' ' || c == '\t')).reverse

/-- The body of the header loop for one non-empty header line: the new value
of `content_len`. -/
def headerLine (line : Str) (content_len : Nat) : Except Exn Nat :=
  if line.contains ':' then
    let key := line.takeWhile (fun c => c != ':')
    let val := (line.dropWhile (fun c => c != ':')).drop 1
    let val := rtrim (ltrim val)
    let key := key.map tolower
    if key == "content-length".data then stoul val else Except.ok content_len
  else Except.ok content_len

/-- The header loop of `handleClient`, `while (true) { readLine; ... }`, with
`readLine` unfolded into it so that the recursion is on the stream (`line`
holds the characters of the header line read so far).  `none` is a failed
`readLine`; `some (content_len, rest)` is the `break` at the blank line. -/
def headerLoop (content_len : Nat) (line : Str) : Str → Except Exn (Option (Nat × Str))
  | [] => Except.ok none
  | c :: rest =>
    if c = '\r' then headerLoop content_len line rest
    else if c = '\n' then
      if line.isEmpty then Except.ok (some (content_len, rest))
      else
        match headerLine line content_len with
        | Except.error e => Except.error e
        | Except.ok cl => headerLoop cl [] rest
    else headerLoop content_len (line ++ [c]) rest

/-- The dispatch on the method at the end of `handleClient`, followed by
`closeFd(fd)`. -/
def dispatch (stack : Nat) (D : Database σ) (method path body : Str) (s : Server σ) :
    Except Exn (Server σ) :=
  if method == "GET".data then Except.ok (handleGET D path s).closeFd
  else if method == "DELETE".data then Except.ok (handleDELETE D path s).closeFd
  else if method == "POST".data then
    match handlePOST stack D path body s with
    | Except.error e => Except.error e
    | Except.ok s1 => Except.ok s1.closeFd
  else Except.ok (s.writeAll http_405).closeFd

/-- The function `HTTPServer::handleClient(fd)`.  `maxSize` is
`std::string::max_size()`: `body.resize(content_len)` throws
`std::length_error` above it (the allocation itself is taken to succeed).
`stack` is the room the stack of the worker thread has for nested matcher
calls.  A failed `readLine` or `readN` has consumed the whole stream. -/
def handleClient (D : Database σ) (maxSize stack : Nat) (s : Server σ) :
    Except Exn (Server σ) :=
  match readLine s.input with
  | none => Except.ok ({ s with input := [] }).closeFd
  | some (line, rest) =>
    let method := (requestLine line).1
    let path := (requestLine line).2.1
    if method.isEmpty || path.isEmpty then Except.ok ({ s with input := rest }).closeFd
    else
      match headerLoop 0 [] rest with
      | Except.error e => Except.error e
      | Except.ok none => Except.ok ({ s with input := [] }).closeFd
      | Except.ok (some (content_len, rest2)) =>
        if method == "POST".data && decide (content_len > 0) then
          if content_len > maxSize then Except.error Exn.length_error
          else if rest2.length < content_len then
            Except.ok ({ s with input := [] }).closeFd
          else
            dispatch stack D method path (rest2.take content_len)
              { s with input := rest2.drop content_len }
        else dispatch stack D method path [] { s with input := rest2 }

/-! ## The dispatcher (`workerLoop`, `acceptLoop`, `stop`) -/

/-- The shared state of the dispatcher: the flag `running_` and the queue
`connq_` (front first). -/
structure Dispatcher where
  running_ : Bool
  connq_ : List Int
deriving DecidableEq, Repr

/-- Where one worker thread is in `workerLoop`: about to test the `while`
condition, at `qcv_.wait` inside the block that holds `qmu_`, inside
`handleClient(fd)`, or returned. -/
inductive WorkerPc where
  | loopHead
  | waiting
  | handling (fd : Int)
  | exited
deriving DecidableEq, Repr

/-- One step of a worker thread.  `none`: the thread cannot move (it is blocked
in `wait`, or it has returned).  The block under `qmu_` is one step: the wait
predicate `!running_ || !connq_.empty()`, the test
`!running_ && connq_.empty()` and the pop. -/
def workerStep (d : Dispatcher) : WorkerPc → Option (Dispatcher × WorkerPc)
  | WorkerPc.loopHead =>
    if d.running_ then some (d, WorkerPc.waiting) else some (d, WorkerPc.exited)
  | WorkerPc.waiting =>
    if !d.running_ || !d.connq_.isEmpty then
      if !d.running_ && d.connq_.isEmpty then some (d, WorkerPc.exited)
      else
        match d.connq_ with
        | fd :: rest =>
          some ({ d with connq_ := rest },
            if fd ≥ 0 then WorkerPc.handling fd else WorkerPc.loopHead)
        | [] => none
    else none
  | WorkerPc.handling _ => some (d, WorkerPc.loopHead)
  | WorkerPc.exited => none

/-- One iteration of `acceptLoop` that accepts the connection `fd`: the loop
condition holds, and `fd` is pushed at the back of the queue. -/
def acceptStep (fd : Int) (d : Dispatcher) : Option Dispatcher :=
  if d.running_ then some { d with connq_ := d.connq_ ++ [fd] } else none

/-- The first line of `stop()`: `running_.exchange(false)`.  The flag is
false afterwards; the result tells whether `stop()` goes on. -/
def stopBegin (d : Dispatcher) : Bool × Dispatcher :=
  (d.running_, { d with running_ := false })

/-- The drain loop of `stop()` under `qmu_`: every queued connection is given
to `closeFd` and popped.  The result is the list of connections closed and the
state afterwards. -/
def stopDrain (d : Dispatcher) : List Int × Dispatcher :=
  (d.connq_, { d with connq_ := [] })

/-! ## Reading a response back

How the peer reads what the server wrote, with the line discipline of
`readLine` (a carriage return is dropped, a line feed ends the line): the
lines up to the first empty line, then the body. -/

/-- The lines of a response up to the first empty line (the status line
first), and the bytes after it.  `lines` are the lines read so far and `line`
the characters of the current one. -/
def responseLines (lines : List Str) (line : Str) : Str → Option (List Str × Str)
  | [] => none
  | c :: rest =>
    if c = '\r' then responseLines lines line rest
    else if c = '\n' then
      if line.isEmpty then some (lines, rest)
      else responseLines (lines ++ [line]) [] rest
    else responseLines lines (line ++ [c]) rest

/-- The value of the header `name` on one header line, without the white
space in front of it. -/
def headerValue (name : Str) (line : Str) : Option Str :=
  if line.contains ':' && line.takeWhile (fun c => c != ':') == name then
    some (ltrim ((line.dropWhile (fun c => c != ':')).drop 1))
  else none

/-- The number written by a non-empty string of decimal digits. -/
def decimalValue (s : Str) : Option Nat :=
  if s.isEmpty || !s.all isdigit then none
  else some (s.foldl (fun a c => 10 * a + (c.toNat - 48)) 0)

/-- A response read back: its status line, the length its `Content-Length`
header declares, and its body. -/
def frame (resp : Str) : Option (Str × Nat × Str) :=
  match responseLines [] [] resp with
  | some (statusLine :: headers, body) =>
    match headers.findSome? (headerValue "Content-Length".data) with
    | some v => (decimalValue v).map (fun n => (statusLine, n, body))
    | none => none
  | _ => none

/-! ## A store in memory, for evaluating the handlers on concrete requests -/

/-- The table `kv` as a list of rows, and a switch that makes every query fail
(`mysql_query` returning non-zero). -/
structure MemStore where
  rows : List (Str × Str)
  failing : Bool
deriving DecidableEq, Repr

/-- The interface `Database` over `MemStore`, following `db.cpp`: `get` selects the row of
the key, `upsert` inserts or replaces it, `del` deletes it and reports whether
a row was affected; each fails when the query fails. -/
def memDb : Database MemStore where
  get := fun st key =>
    if st.failing then (GetResult.error, st)
    else
      match st.rows.lookup key with
      | some v => (GetResult.found v, st)
      | none => (GetResult.notFound, st)
  upsert := fun st key val =>
    if st.failing then (false, st)
    else (true, { st with rows := (key, val) :: st.rows.filter (fun e => !(e.1 == key)) })
  del := fun st key =>
    if st.failing then (DelResult.error, st)
    else
      (DelResult.existed ((st.rows.lookup key).isSome),
       { st with rows := st.rows.filter (fun e => !(e.1 == key)) })

/-- A fresh connection carrying the bytes `input`, on a server whose cache has
capacity `cap` and entries `entries` and whose store holds `rows`. -/
def conn (cap : Nat) (entries rows : List (Str × Str)) (failing : Bool) (input : Str) :
    Server MemStore :=
  { cache_ := { capacity := cap, entries := entries },
    db_ := { rows := rows, failing := failing },
    trace := [], input := input, sent := [], closed := false }

/-! ## Lemmas on the cache model -/

theorem LRUCache.get_miss (c : LRUCache) (key : Str) (h : (c.get key).1 = none) :
    (c.get key).2 = c := by
  unfold LRUCache.get at h ⊢
  cases hl : c.entries.lookup key with
  | none => simp
  | some v => rw [hl] at h; simp at h

theorem LRUCache.get_set (c : LRUCache) (key val : Str) (h : 0 < c.capacity) :
    ((c.set key val).get key).1 = some val := by
  obtain ⟨n, hn⟩ : ∃ n, c.capacity = n + 1 := ⟨c.capacity - 1, by omega⟩
  simp [LRUCache.get, LRUCache.set, hn, List.take_succ_cons, List.lookup]

theorem starts_with_kv_iff (path : Str) :
    starts_with_kv path = true ↔ "/kv/".data <+: path := by
  unfold starts_with_kv
  rw [List.prefix_iff_eq_take]
  simp only [beq_iff_eq]
  constructor
  · intro h; exact h.symm
  · intro h; exact h.symm

theorem starts_with_kv_append (key : Str) : starts_with_kv ("/kv/".data ++ key) = true := by
  rw [starts_with_kv_iff]; exact List.prefix_append _ _

theorem starts_with_kv_cons (key : Str) :
    starts_with_kv ('/' :: 'k' :: 'v' :: '/' :: key) = true :=
  starts_with_kv_append key

/-! ## Response framing -/

theorem digitChar_toNat : ∀ d < 10, (digitChar d).toNat = 48 + d := by decide

theorem isdigit_digitChar : ∀ d < 10, isdigit (digitChar d) = true := by decide

theorem foldl_dec (s : Str) (a : Nat) :
    s.foldl (fun a c => 10 * a + (c.toNat - 48)) a
      = a * 10 ^ s.length + s.foldl (fun a c => 10 * a + (c.toNat - 48)) 0 := by
  induction s generalizing a with
  | nil => simp
  | cons c s ih =>
    simp only [List.foldl_cons, List.length_cons]
    rw [ih (10 * a + (c.toNat - 48)), ih (10 * 0 + (c.toNat - 48))]
    ring

theorem decAux_spec (fuel n : Nat) (acc : Str) (hn : n < fuel)
    (hacc : ∀ c ∈ acc, isdigit c = true) :
    (∀ c ∈ decAux fuel n acc, isdigit c = true)
    ∧ decAux fuel n acc ≠ []
    ∧ (decAux fuel n acc).foldl (fun a c => 10 * a + (c.toNat - 48)) 0
        = n * 10 ^ acc.length + acc.foldl (fun a c => 10 * a + (c.toNat - 48)) 0 := by
  induction fuel generalizing n acc with
  | zero => omega
  | succ fuel ih =>
    unfold decAux
    by_cases h10 : n < 10
    · simp only [h10, if_true]
      refine ⟨?_, by simp, ?_⟩
      · intro c hc
        rcases List.mem_cons.1 hc with rfl | hc
        · exact isdigit_digitChar n h10
        · exact hacc c hc
      · rw [List.foldl_cons, foldl_dec, digitChar_toNat n h10]
        simp
    · simp only [h10, if_false]
      have hlt : n / 10 < fuel := by omega
      have hacc2 : ∀ c ∈ digitChar (n % 10) :: acc, isdigit c = true := by
        intro c hc
        rcases List.mem_cons.1 hc with rfl | hc
        · exact isdigit_digitChar _ (Nat.mod_lt _ (by decide))
        · exact hacc c hc
      obtain ⟨h1, h2, h3⟩ := ih (n / 10) (digitChar (n % 10) :: acc) hlt hacc2
      refine ⟨h1, h2, ?_⟩
      rw [h3, List.foldl_cons, foldl_dec acc, digitChar_toNat _ (Nat.mod_lt _ (by decide))]
      simp only [List.length_cons, Nat.mul_zero, Nat.zero_add, Nat.add_sub_cancel_left]
      have e : n * 10 ^ acc.length = (10 * (n / 10) + n % 10) * 10 ^ acc.length := by
        rw [Nat.div_add_mod]
      rw [e, pow_succ]
      ring

theorem size_to_string_digits (n : Nat) : ∀ c ∈ size_to_string n, isdigit c = true :=
  (decAux_spec (n + 1) n [] (by omega) (by simp)).1

theorem size_to_string_ne_nil (n : Nat) : size_to_string n ≠ [] :=
  (decAux_spec (n + 1) n [] (by omega) (by simp)).2.1

/-- The decimal text of `n` reads back as `n`. -/
theorem decimalValue_size_to_string (n : Nat) : decimalValue (size_to_string n) = some n := by
  obtain ⟨h1, h2, h3⟩ := decAux_spec (n + 1) n [] (by omega) (by simp)
  have hall : (size_to_string n).all isdigit = true := by
    rw [List.all_eq_true]; exact h1
  have hne : (size_to_string n).isEmpty = false := by
    cases h : size_to_string n with
    | nil => exact absurd h h2
    | cons _ _ => rfl
  unfold decimalValue
  rw [hall, hne]
  simp only [Bool.not_true, Bool.or_self, Bool.false_eq_true, if_false]
  unfold size_to_string
  rw [h3]
  simp

theorem isdigit_ne (c d : Char) (h : isdigit c = true) (hd : d.toNat < 48) : c ≠ d := by
  rintro rfl
  simp [isdigit] at h
  omega

theorem responseLines_run (lines : List Str) (line w rest : Str)
    (hw : ∀ c ∈ w, c ≠ '\r' ∧ c ≠ '\n') :
    responseLines lines line (w ++ rest) = responseLines lines (line ++ w) rest := by
  induction w generalizing line with
  | nil => simp
  | cons x w ih =>
    have hx := hw x (List.mem_cons_self _ _)
    have hw2 : ∀ c ∈ w, c ≠ '\r' ∧ c ≠ '\n' := fun c hc => hw c (List.mem_cons_of_mem _ hc)
    simp [responseLines, hx.1, hx.2, ih _ hw2]

/-- A non-empty line without line-end characters, followed by CR LF, is read
as one line. -/
theorem responseLines_line (lines : List Str) (w rest : Str) (hne : w ≠ [])
    (hw : ∀ c ∈ w, c ≠ '\r' ∧ c ≠ '\n') :
    responseLines lines [] (w ++ '\r' :: '\n' :: rest)
      = responseLines (lines ++ [w]) [] rest := by
  rw [responseLines_run lines [] w _ hw]
  have : w.isEmpty = false := by cases w <;> simp_all
  simp [responseLines, this]

theorem responseLines_blank (lines : List Str) (rest : Str) :
    responseLines lines [] ('\r' :: '\n' :: rest) = some (lines, rest) := by
  simp [responseLines]

theorem to_string_clean (i : Int) : ∀ c ∈ to_string i, c ≠ '\r' ∧ c ≠ '\n' := by
  have hd : ∀ c ∈ size_to_string i.natAbs, c ≠ '\r' ∧ c ≠ '\n' := fun c hc =>
    ⟨isdigit_ne c _ (size_to_string_digits _ c hc) (by decide),
     isdigit_ne c _ (size_to_string_digits _ c hc) (by decide)⟩
  intro c hc
  unfold to_string at hc
  split at hc
  · rcases List.mem_cons.1 hc with rfl | hc
    · decide
    · exact hd c hc
  · exact hd c hc

theorem statusLine_clean (i : Int) :
    "HTTP/1.1 ".data ++ to_string i ≠ []
    ∧ ∀ c ∈ "HTTP/1.1 ".data ++ to_string i, c ≠ '\r' ∧ c ≠ '\n' := by
  refine ⟨by simp, ?_⟩
  intro c hc
  rcases List.mem_append.1 hc with h1 | h1
  · clear hc; revert c; decide
  · exact to_string_clean i c h1

theorem lengthHeader_clean (n : Nat) :
    "Content-Length: ".data ++ size_to_string n ≠ []
    ∧ ∀ c ∈ "Content-Length: ".data ++ size_to_string n, c ≠ '\r' ∧ c ≠ '\n' := by
  refine ⟨by simp, ?_⟩
  intro c hc
  rcases List.mem_append.1 hc with h1 | h1
  · clear hc; revert c; decide
  · exact ⟨isdigit_ne c _ (size_to_string_digits _ c h1) (by decide),
      isdigit_ne c _ (size_to_string_digits _ c h1) (by decide)⟩

theorem headerValue_length (n : Nat) :
    headerValue "Content-Length".data ("Content-Length: ".data ++ size_to_string n)
      = some (size_to_string n) := by
  obtain ⟨d, ds, hds⟩ : ∃ d ds, size_to_string n = d :: ds := by
    cases h : size_to_string n with
    | nil => exact absurd h (size_to_string_ne_nil n)
    | cons d ds => exact ⟨d, ds, rfl⟩
  have hd : isdigit d = true := size_to_string_digits n d (by rw [hds]; simp)
  have h1 : d ≠ ' ' := isdigit_ne d _ hd (by decide)
  have h2 : d ≠ '\t' := isdigit_ne d _ hd (by decide)
  have h3 : (d == ' ' || d == '\t') = false := by simp [h1, h2]
  rw [hds]
  simp [headerValue, ltrim, List.takeWhile, List.dropWhile, h3]

theorem frame_eq (resp statusLine : Str) (headers : List Str) (body v : Str) (n : Nat)
    (h1 : responseLines [] [] resp = some (statusLine :: headers, body))
    (h2 : headers.findSome? (headerValue "Content-Length".data) = some v)
    (h3 : decimalValue v = some n) :
    frame resp = some (statusLine, n, body) := by
  unfold frame
  rw [h1]
  simp only [h2, h3, Option.map]

theorem findSome_second {α β : Type} (f : α → Option β) (a b : α) (v : β)
    (ha : f a = none) (hb : f b = some v) : [a, b].findSome? f = some v := by
  simp [List.findSome?, ha, hb]

theorem findSome_first {α β : Type} (f : α → Option β) (a : α) (v : β)
    (ha : f a = some v) : [a].findSome? f = some v := by
  simp [List.findSome?, ha]

theorem frame_http_json (status : Int) (payload : Str) :
    frame (http_json status payload)
      = some ("HTTP/1.1 ".data ++ to_string status, payload.length, payload) := by
  have e : http_json status payload
      = ("HTTP/1.1 ".data ++ to_string status) ++ '\r' :: '\n' ::
          ("Content-Type: application/json".data ++ '\r' :: '\n' ::
            (("Content-Length: ".data ++ size_to_string payload.length) ++ '\r' :: '\n' ::
              ('\r' :: '\n' :: payload))) := by
    simp [http_json]
  have hct : headerValue "Content-Length".data "Content-Type: application/json".data = none := by
    decide
  refine frame_eq _ _
    ["Content-Type: application/json".data,
     "Content-Length: ".data ++ size_to_string payload.length]
    _ (size_to_string payload.length) _ ?_ ?_ (decimalValue_size_to_string _)
  · rw [e, responseLines_line _ _ _ (statusLine_clean status).1 (statusLine_clean status).2,
      responseLines_line _ _ _ (by decide) (by decide),
      responseLines_line _ _ _ (lengthHeader_clean _).1 (lengthHeader_clean _).2,
      responseLines_blank]
    rfl
  · exact findSome_second _ _ _ _ hct (headerValue_length _)

theorem frame_http_empty (status : Int) :
    frame (http_empty status) = some ("HTTP/1.1 ".data ++ to_string status, 0, []) := by
  have e : http_empty status
      = ("HTTP/1.1 ".data ++ to_string status) ++ '\r' :: '\n' ::
          ("Content-Length:0".data ++ '\r' :: '\n' :: ('\r' :: '\n' :: [])) := by
    simp [http_empty]
  have hv : headerValue "Content-Length".data "Content-Length:0".data = some "0".data := by
    decide
  refine frame_eq _ _ ["Content-Length:0".data] _ "0".data _ ?_ ?_ (by decide)
  · rw [e, responseLines_line _ _ _ (statusLine_clean status).1 (statusLine_clean status).2,
      responseLines_line _ _ _ (by decide) (by decide), responseLines_blank]
    rfl
  · exact findSome_first _ _ _ hv

/-- C9: every response the server writes, read back line by line, has a
status line, header lines and an empty line, and one of its headers is
`Content-Length` with a decimal value equal to the number of bytes after the
empty line: the payload size for `http_json`, and 0 for `http_empty` and for
the 405 literal, whose body is empty. -/
theorem response_framing (status : Int) (payload : Str) :
    frame (http_json status payload)
      = some ("HTTP/1.1 ".data ++ to_string status, payload.length, payload)
    ∧ frame (http_empty status) = some ("HTTP/1.1 ".data ++ to_string status, 0, [])
    ∧ frame http_405 = some ("HTTP/1.1 405 Method Not Allowed".data, 0, []) :=
  ⟨frame_http_json status payload, frame_http_empty status, by decide⟩

/-! ## The handlers -/

/-- C1: `handleGET` on the path `/kv/` followed by a non-empty key.  On a cache
hit with value `v` the answer is 200 with the body `{"value":"v"}`, the only
call is `cache_.get` and the store is untouched.  On a miss the store is asked
once; a store error gives 500 and "not found" gives 404, the cache staying as
it was; a store hit with `v` is followed by `cache_.set(key, v)` and the
answer 200 with the body `{"value":"v"}`.  The 200 answer, read back, has the
status line `HTTP/1.1 200` and exactly that body. -/
theorem handleGET_contract (D : Database σ) (s : Server σ) (key : Str) (hk : key ≠ []) :
    handleGET D ("/kv/".data ++ key) s =
      (match s.cache_.get key with
      | (some v, c) =>
        { s with cache_ := c, trace := s.trace ++ [Call.cacheGet key],
                 sent := s.sent ++
                   [http_json 200 ("\x7b\"value\":\"".data ++ v ++ "\"\x7d".data)] }
      | (none, _) =>
        match D.get s.db_ key with
        | (GetResult.error, d) =>
          { s with db_ := d, trace := s.trace ++ [Call.cacheGet key, Call.dbGet key],
                   sent := s.sent ++ [http_empty 500] }
        | (GetResult.notFound, d) =>
          { s with db_ := d, trace := s.trace ++ [Call.cacheGet key, Call.dbGet key],
                   sent := s.sent ++ [http_empty 404] }
        | (GetResult.found v, d) =>
          { s with cache_ := s.cache_.set key v, db_ := d,
                   trace := s.trace ++ [Call.cacheGet key, Call.dbGet key, Call.cacheSet key v],
                   sent := s.sent ++
                     [http_json 200 ("\x7b\"value\":\"".data ++ v ++ "\"\x7d".data)] })
    ∧ (∀ v : Str,
        frame (http_json 200 ("\x7b\"value\":\"".data ++ v ++ "\"\x7d".data))
          = some ("HTTP/1.1 200".data,
              ("\x7b\"value\":\"".data ++ v ++ "\"\x7d".data).length,
              "\x7b\"value\":\"".data ++ v ++ "\"\x7d".data)) := by
  refine ⟨?_, fun v => frame_http_json 200 _⟩
  have hdrop : ("/kv/".data ++ key).drop 4 = key := by simp
  have hne : key.isEmpty = false := by cases key <;> simp_all
  unfold handleGET
  simp only [starts_with_kv_append, hdrop, hne, Bool.not_true, Bool.false_eq_true, if_false]
  rcases hg : s.cache_.get key with ⟨_ | v, c⟩
  · have hc : c = s.cache_ := by
      have := LRUCache.get_miss s.cache_ key (by rw [hg])
      rw [hg] at this; exact this
    subst hc
    rcases hd : D.get s.db_ key with ⟨_ | _ | v, d⟩ <;>
      simp [Server.cacheGet, Server.dbGet, Server.cacheSet, Server.writeAll, hg, hd,
        starts_with_kv_cons, hne]
  · simp [Server.cacheGet, Server.writeAll, hg, starts_with_kv_cons, hne]

/-- Witness of C1: `GET /kv/x` with an empty cache and the row `(x, 9)` in the
store. -/
theorem handleGET_contract_witness :
    "x".data ≠ [] ∧
    handleGET memDb "/kv/x".data (conn 2 [] [("x".data, "9".data)] false []) =
      { conn 2 [("x".data, "9".data)] [("x".data, "9".data)] false [] with
        trace := [Call.cacheGet "x".data, Call.dbGet "x".data,
                  Call.cacheSet "x".data "9".data],
        sent := [http_json 200 "\x7b\"value\":\"9\"\x7d".data] }
    ∧ frame (http_json 200 "\x7b\"value\":\"9\"\x7d".data)
        = some ("HTTP/1.1 200".data, 13, "\x7b\"value\":\"9\"\x7d".data) :=
  ⟨by decide,
   (handleGET_contract memDb (conn 2 [] [("x".data, "9".data)] false []) "x".data
     (by decide)).1,
   (handleGET_contract memDb (conn 2 [] [("x".data, "9".data)] false []) "x".data
     (by decide)).2 "9".data⟩

/-- C3: `handleDELETE` on the path `/kv/` followed by a non-empty key.  The
first and only store call is `del(key)`.  A store error gives 500 and "did not
exist" gives 404, and in both cases the cache is unchanged and `cache_.erase`
is not called; when the key existed, `cache_.erase(key)` follows and the
answer is 204 with an empty body. -/
theorem handleDELETE_contract (D : Database σ) (s : Server σ) (key : Str) (hk : key ≠ []) :
    handleDELETE D ("/kv/".data ++ key) s =
      match D.del s.db_ key with
      | (DelResult.error, d) =>
        { s with db_ := d, trace := s.trace ++ [Call.dbDel key],
                 sent := s.sent ++ [http_empty 500] }
      | (DelResult.existed false, d) =>
        { s with db_ := d, trace := s.trace ++ [Call.dbDel key],
                 sent := s.sent ++ [http_empty 404] }
      | (DelResult.existed true, d) =>
        { s with cache_ := s.cache_.erase key, db_ := d,
                 trace := s.trace ++ [Call.dbDel key, Call.cacheErase key],
                 sent := s.sent ++ [http_empty 204] } := by
  have hdrop : ("/kv/".data ++ key).drop 4 = key := by simp
  have hne : key.isEmpty = false := by cases key <;> simp_all
  unfold handleDELETE
  simp only [starts_with_kv_append, hdrop, hne, Bool.not_true, Bool.false_eq_true, if_false]
  rcases hd : D.del s.db_ key with ⟨_ | _ | _, d⟩ <;>
    simp [Server.dbDel, Server.cacheErase, Server.writeAll, hd, starts_with_kv_cons, hne]

/-- Witness of C3: `DELETE /kv/missing` on an empty store, with `missing`
present in the cache. -/
theorem handleDELETE_contract_witness :
    "missing".data ≠ [] ∧
    handleDELETE memDb "/kv/missing".data
        (conn 2 [("missing".data, "1".data)] [] false []) =
      { conn 2 [("missing".data, "1".data)] [] false [] with
        trace := [Call.dbDel "missing".data],
        sent := [http_empty 404] } :=
  ⟨by decide,
   handleDELETE_contract memDb (conn 2 [("missing".data, "1".data)] [] false [])
     "missing".data (by decide)⟩

/-- C8: a malformed path gives 404 and nothing else happens.  For GET and
DELETE that is every path that does not start with `/kv/` or is `/kv/`
itself; for POST it is every path other than `/kv`, whatever the body (the
body is not looked at). -/
theorem malformed_path_404 (D : Database σ) (s : Server σ) (stack : Nat) (p q body : Str)
    (hp : ¬ ("/kv/".data <+: p) ∨ p = "/kv/".data) (hq : q ≠ "/kv".data) :
    handleGET D p s = { s with sent := s.sent ++ [http_empty 404] }
    ∧ handleDELETE D p s = { s with sent := s.sent ++ [http_empty 404] }
    ∧ handlePOST stack D q body s
        = Except.ok { s with sent := s.sent ++ [http_empty 404] } := by
  have hpost : (q != "/kv".data) = true := by simpa using hq
  refine ⟨?_, ?_, ?_⟩
  · unfold handleGET
    rcases hp with hp | hp
    · have : starts_with_kv p = false := by
        rw [← Bool.not_eq_true, starts_with_kv_iff]; exact hp
      simp [this, Server.writeAll]
    · subst hp; simp [starts_with_kv_append, Server.writeAll, starts_with_kv]
  · unfold handleDELETE
    rcases hp with hp | hp
    · have : starts_with_kv p = false := by
        rw [← Bool.not_eq_true, starts_with_kv_iff]; exact hp
      simp [this, Server.writeAll]
    · subst hp; simp [starts_with_kv_append, Server.writeAll, starts_with_kv]
  · unfold handlePOST
    simp [hpost, Server.writeAll]

/-- Witness of C8: `GET /kv/` and `DELETE /kv/` (empty key), and `POST /kv/x`
with a well-formed body. -/
theorem malformed_path_404_witness :
    (¬ ("/kv/".data <+: "/kv/".data) ∨ "/kv/".data = "/kv/".data)
    ∧ "/kv/x".data ≠ "/kv".data
    ∧ handleGET memDb "/kv/".data (conn 2 [] [] false [])
        = { conn 2 [] [] false [] with sent := [http_empty 404] }
    ∧ handleDELETE memDb "/kv/".data (conn 2 [] [] false [])
        = { conn 2 [] [] false [] with sent := [http_empty 404] }
    ∧ handlePOST 4096 memDb "/kv/x".data "\x7b\"key\":\"x\",\"value\":\"9\"\x7d".data
        (conn 2 [] [] false [])
        = Except.ok { conn 2 [] [] false [] with sent := [http_empty 404] } :=
  ⟨Or.inr rfl, by decide,
   malformed_path_404 memDb (conn 2 [] [] false []) 4096 "/kv/".data "/kv/x".data
     "\x7b\"key\":\"x\",\"value\":\"9\"\x7d".data (Or.inr rfl) (by decide)⟩

/-- What `handlePOST` does on the path `/kv` when `extract_json_key_value`
returns: without a pair, or with an empty key, the answer is 400 and nothing
is called; otherwise `cache_.set(key, val)` comes first and
`upsert(key, val)` second, a store error gives 500 with the cache as `set`
left it (no erase) and a store success gives 200 with an empty body. -/
theorem handlePOST_returns (stack : Nat) (D : Database σ) (s : Server σ) (body : Str)
    (r : Option (Str × Str)) (hx : extract_json_key_value stack body = Except.ok r) :
    handlePOST stack D "/kv".data body s =
      Except.ok (match r with
      | none => { s with sent := s.sent ++ [http_empty 400] }
      | some (key, val) =>
        if key = [] then { s with sent := s.sent ++ [http_empty 400] }
        else
          match D.upsert s.db_ key val with
          | (false, d) =>
            { s with cache_ := s.cache_.set key val, db_ := d,
                     trace := s.trace ++ [Call.cacheSet key val, Call.dbUpsert key val],
                     sent := s.sent ++ [http_empty 500] }
          | (true, d) =>
            { s with cache_ := s.cache_.set key val, db_ := d,
                     trace := s.trace ++ [Call.cacheSet key val, Call.dbUpsert key val],
                     sent := s.sent ++ [http_empty 200] }) := by
  unfold handlePOST
  simp only [bne_self_eq_false, Bool.false_eq_true, if_false, hx]
  rcases r with _ | ⟨key, val⟩
  · simp [Server.writeAll]
  · by_cases hk : key = []
    · simp [hk, Server.writeAll]
    · have hne : key.isEmpty = false := by cases key <;> simp_all
      rcases hu : D.upsert s.db_ key val with ⟨_ | _, d⟩ <;>
        simp [hk, hne, Server.cacheSet, Server.dbUpsert, Server.writeAll, hu]

/-! ## The two field orders on an unlimited stack -/

theorem groupKIdeal_run {R : Type} (p : Char → Bool) (k : Str → Str → Option R)
    (hk : ∀ acc x xs, p x = true → k acc (x :: xs) = none)
    (w : Str) (hw : ∀ c ∈ w, p c = true) (acc : Str) (q : Char) (rest : Str)
    (hq : p q = false) :
    groupKIdeal p k acc (w ++ q :: rest) = k (acc ++ w) (q :: rest) := by
  induction w generalizing acc with
  | nil => simp [groupKIdeal, hq]
  | cons x w ih =>
    have hx : p x = true := hw x (List.mem_cons_self _ _)
    have hw2 : ∀ c ∈ w, p c = true := fun c hc => hw c (List.mem_cons_of_mem _ hc)
    simp [groupKIdeal, hx, ih hw2, hk acc x _ hx]

theorem notQuote_of_ne (w : Str) (hw : ∀ c ∈ w, c ≠ '"') : ∀ c ∈ w, notQuote c = true := by
  intro c hc
  simp [notQuote, hw c hc]

/-- The first pattern cannot start at a character other than the quote. -/
theorem matchHereIdeal_re_nonquote (c : Char) (s : Str) (hc : c ≠ '"') :
    matchHereIdeal re [] (c :: s) = none := by
  simp [re, lit, matchHereIdeal, hc]

theorem regexSearchIdeal_re_skip (w s : Str) (hw : ∀ c ∈ w, c ≠ '"') :
    regexSearchIdeal re (w ++ s) = regexSearchIdeal re s := by
  induction w with
  | nil => rfl
  | cons x w ih =>
    have hx : x ≠ '"' := hw x (List.mem_cons_self _ _)
    have hw2 : ∀ c ∈ w, c ≠ '"' := fun c hc => hw c (List.mem_cons_of_mem _ hc)
    simp [regexSearchIdeal, matchHereIdeal_re_nonquote x _ hx, ih hw2]

theorem matchHereIdeal_chr (c : Char) (r : List Item) (caps : List Str) (s : Str) :
    matchHereIdeal (Item.chr c :: r) caps (c :: s) = matchHereIdeal r caps s := by
  simp [matchHereIdeal]

theorem matchHereIdeal_chr_ne (c x : Char) (r : List Item) (caps : List Str) (s : Str)
    (h : x ≠ c) : matchHereIdeal (Item.chr c :: r) caps (x :: s) = none := by
  simp [matchHereIdeal, h]

/-- The item `\s*` in front of an input that does not start with white space takes
nothing. -/
theorem matchHereIdeal_star_skip (c : Char) (r : List Item) (caps : List Str) (s : Str)
    (h : isspace c = false) :
    matchHereIdeal (Item.star isspace :: r) caps (c :: s) = matchHereIdeal r caps (c :: s) := by
  simp [matchHereIdeal, starKIdeal, h]

/-- The items `([^"]*)"` on a run of characters other than the quote followed by a
quote: the submatch is the whole run. -/
theorem matchHereIdeal_capStar (r : List Item) (caps : List Str) (w rest : Str)
    (hw : ∀ c ∈ w, c ≠ '"') :
    matchHereIdeal (Item.capStar notQuote :: Item.chr '"' :: r) caps (w ++ '"' :: rest)
      = matchHereIdeal r (caps ++ [w]) rest := by
  have hrun := groupKIdeal_run notQuote
    (fun cap rest => matchHereIdeal (Item.chr '"' :: r) (caps ++ [cap]) rest)
    (by
      intro acc x xs hx
      have : x ≠ '"' := by simpa [notQuote] using hx
      simp [matchHereIdeal, this])
    w (notQuote_of_ne w hw) [] '"' rest (by simp [notQuote])
  simp only [matchHereIdeal] at hrun ⊢
  rw [hrun]
  simp

/-- The items `([^"]+)"` on a non-empty run of characters other than the quote followed
by a quote: the submatch is the whole run. -/
theorem matchHereIdeal_capPlus (r : List Item) (caps : List Str) (w rest : Str)
    (hne : w ≠ []) (hw : ∀ c ∈ w, c ≠ '"') :
    matchHereIdeal (Item.capPlus notQuote :: Item.chr '"' :: r) caps (w ++ '"' :: rest)
      = matchHereIdeal r (caps ++ [w]) rest := by
  obtain ⟨x, xs, rfl⟩ : ∃ x xs, w = x :: xs := by
    cases w with
    | nil => exact absurd rfl hne
    | cons x xs => exact ⟨x, xs, rfl⟩
  have hx : notQuote x = true := notQuote_of_ne _ hw x (List.mem_cons_self _ _)
  have hxs : ∀ c ∈ xs, notQuote c = true :=
    fun c hc => notQuote_of_ne _ hw c (List.mem_cons_of_mem _ hc)
  have hrun := groupKIdeal_run notQuote
    (fun cap rest => matchHereIdeal (Item.chr '"' :: r) (caps ++ [cap]) rest)
    (by
      intro acc y ys hy
      have : y ≠ '"' := by simpa [notQuote] using hy
      simp [matchHereIdeal, this])
    xs hxs [x] '"' rest (by simp [notQuote])
  simp only [matchHereIdeal, List.cons_append, hx, if_true] at hrun ⊢
  rw [hrun]
  simp

theorem re_eq : re =
    [Item.chr '"', Item.chr 'k', Item.chr 'e', Item.chr 'y', Item.chr '"',
     Item.star isspace, Item.chr ':', Item.star isspace,
     Item.chr '"', Item.capPlus notQuote, Item.chr '"',
     Item.star isspace, Item.chr ',', Item.star isspace,
     Item.chr '"', Item.chr 'v', Item.chr 'a', Item.chr 'l', Item.chr 'u', Item.chr 'e',
     Item.chr '"', Item.star isspace, Item.chr ':', Item.star isspace,
     Item.chr '"', Item.capStar notQuote, Item.chr '"'] := rfl

theorem re2_eq : re2 =
    [Item.chr '"', Item.chr 'v', Item.chr 'a', Item.chr 'l', Item.chr 'u', Item.chr 'e',
     Item.chr '"', Item.star isspace, Item.chr ':', Item.star isspace,
     Item.chr '"', Item.capStar notQuote, Item.chr '"',
     Item.star isspace, Item.chr ',', Item.star isspace,
     Item.chr '"', Item.chr 'k', Item.chr 'e', Item.chr 'y', Item.chr '"',
     Item.star isspace, Item.chr ':', Item.star isspace,
     Item.chr '"', Item.capPlus notQuote, Item.chr '"'] := rfl

theorem isspace_colon : isspace ':' = false := by decide
theorem isspace_quote : isspace '"' = false := by decide
theorem isspace_comma : isspace ',' = false := by decide
theorem isspace_brace : isspace '\x7d' = false := by decide

/-- The first pattern matches `"key":"k","value":"v"` at its start and gives
the submatches `k` and `v`. -/
theorem matchHereIdeal_re_kv (k v rest : Str) (hk : k ≠ []) (hkq : ∀ c ∈ k, c ≠ '"')
    (hvq : ∀ c ∈ v, c ≠ '"') :
    matchHereIdeal re []
      ('"' :: 'k' :: 'e' :: 'y' :: '"' :: ':' :: '"' ::
        (k ++ '"' :: ',' :: '"' :: 'v' :: 'a' :: 'l' :: 'u' :: 'e' :: '"' :: ':' :: '"' ::
          (v ++ '"' :: rest)))
      = some [k, v] := by
  rw [re_eq]
  simp only [matchHereIdeal_chr, matchHereIdeal_star_skip _ _ _ _ isspace_colon,
    matchHereIdeal_star_skip _ _ _ _ isspace_quote, matchHereIdeal_star_skip _ _ _ _ isspace_comma,
    matchHereIdeal_capPlus _ _ k _ hk hkq, matchHereIdeal_capStar _ _ v _ hvq]
  simp [matchHereIdeal]

/-- The second pattern matches `"value":"v","key":"k"` at its start and gives
the submatches `v` and `k`. -/
theorem matchHereIdeal_re2_vk (k v rest : Str) (hk : k ≠ []) (hkq : ∀ c ∈ k, c ≠ '"')
    (hvq : ∀ c ∈ v, c ≠ '"') :
    matchHereIdeal re2 []
      ('"' :: 'v' :: 'a' :: 'l' :: 'u' :: 'e' :: '"' :: ':' :: '"' ::
        (v ++ '"' :: ',' :: '"' :: 'k' :: 'e' :: 'y' :: '"' :: ':' :: '"' ::
          (k ++ '"' :: rest)))
      = some [v, k] := by
  rw [re2_eq]
  simp only [matchHereIdeal_chr, matchHereIdeal_star_skip _ _ _ _ isspace_colon,
    matchHereIdeal_star_skip _ _ _ _ isspace_quote, matchHereIdeal_star_skip _ _ _ _ isspace_comma,
    matchHereIdeal_capPlus _ _ k _ hk hkq, matchHereIdeal_capStar _ _ v _ hvq]
  simp [matchHereIdeal]

theorem regexSearchIdeal_cons_none (items : List Item) (c : Char) (s : Str)
    (h : matchHereIdeal items [] (c :: s) = none) :
    regexSearchIdeal items (c :: s) = regexSearchIdeal items s := by
  simp [regexSearchIdeal, h]

theorem regexSearchIdeal_cons_some (items : List Item) (c : Char) (s : Str) (m : List Str)
    (h : matchHereIdeal items [] (c :: s) = some m) :
    regexSearchIdeal items (c :: s) = some m := by
  simp [regexSearchIdeal, h]

/-- The first pattern does not match at a quoted word that is followed by
something other than white space or a colon. -/
theorem matchHereIdeal_re_word (w rest : Str) (c : Char) (hw : ∀ a ∈ w, a ≠ '"')
    (hc : isspace c = false) (hc2 : c ≠ ':') :
    matchHereIdeal re [] ('"' :: (w ++ '"' :: c :: rest)) = none := by
  rw [re_eq]
  rcases w with _ | ⟨a1, _ | ⟨a2, _ | ⟨a3, _ | ⟨a4, w⟩⟩⟩⟩
  · simp [matchHereIdeal]
  · simp [matchHereIdeal]
  · simp [matchHereIdeal]
  · simp [matchHereIdeal, starKIdeal, hc, hc2]
  · have h4 : a4 ≠ '"' := hw a4 (by simp)
    simp [matchHereIdeal, h4]

/-- The first pattern does not match anywhere in `{"value":"v","key":"k"}`. -/
theorem regexSearchIdeal_re_vk (k v : Str) (hk : k ≠ []) (hkq : ∀ c ∈ k, c ≠ '"')
    (hvq : ∀ c ∈ v, c ≠ '"') :
    regexSearchIdeal re
      ('\x7b' :: '"' :: 'v' :: 'a' :: 'l' :: 'u' :: 'e' :: '"' :: ':' :: '"' ::
        (v ++ '"' :: ',' :: '"' :: 'k' :: 'e' :: 'y' :: '"' :: ':' :: '"' ::
          (k ++ '"' :: '\x7d' :: [])))
      = none := by
  have hkey : matchHereIdeal re []
      ('"' :: 'k' :: 'e' :: 'y' :: '"' :: ':' :: '"' :: (k ++ '"' :: '\x7d' :: [])) = none := by
    rw [re_eq]
    simp only [matchHereIdeal_chr, matchHereIdeal_star_skip _ _ _ _ isspace_colon,
      matchHereIdeal_star_skip _ _ _ _ isspace_quote, matchHereIdeal_capPlus _ _ k _ hk hkq,
      matchHereIdeal_star_skip _ _ _ _ isspace_brace]
    exact matchHereIdeal_chr_ne _ _ _ _ _ (by decide)
  have hq : ∀ (c : Char) (s : Str), c ≠ 'k' → matchHereIdeal re [] ('"' :: c :: s) = none := by
    intro c s hc
    rw [re_eq, matchHereIdeal_chr]
    exact matchHereIdeal_chr_ne _ _ _ _ _ hc
  have hend : matchHereIdeal re [] ('"' :: '\x7d' :: []) = none := hq _ _ (by decide)
  have hn : ∀ (c : Char) (s : Str), c ≠ '"' → regexSearchIdeal re (c :: s) = regexSearchIdeal re s :=
    fun c s hc => regexSearchIdeal_cons_none _ _ _ (matchHereIdeal_re_nonquote c s hc)
  rw [regexSearchIdeal_cons_none _ _ _ (matchHereIdeal_re_nonquote _ _ (by decide)),
    regexSearchIdeal_cons_none _ _ _ (hq _ _ (by decide)),
    hn 'v' _ (by decide), hn 'a' _ (by decide), hn 'l' _ (by decide),
    hn 'u' _ (by decide), hn 'e' _ (by decide),
    regexSearchIdeal_cons_none _ _ _ (hq _ _ (by decide)),
    regexSearchIdeal_cons_none _ _ _ (matchHereIdeal_re_nonquote _ _ (by decide)),
    regexSearchIdeal_cons_none _ _ _ (matchHereIdeal_re_word v _ ',' hvq (by decide) (by decide)),
    regexSearchIdeal_re_skip v _ hvq,
    regexSearchIdeal_cons_none _ _ _ (hq _ _ (by decide)),
    regexSearchIdeal_cons_none _ _ _ (matchHereIdeal_re_nonquote _ _ (by decide)),
    regexSearchIdeal_cons_none _ _ _ hkey,
    hn 'k' _ (by decide), hn 'e' _ (by decide), hn 'y' _ (by decide),
    regexSearchIdeal_cons_none _ _ _ (hq _ _ (by decide)),
    regexSearchIdeal_cons_none _ _ _ (matchHereIdeal_re_nonquote _ _ (by decide)),
    regexSearchIdeal_cons_none _ _ _ (matchHereIdeal_re_word k _ '\x7d' hkq (by decide) (by decide)),
    regexSearchIdeal_re_skip k _ hkq,
    regexSearchIdeal_cons_none _ _ _ hend,
    regexSearchIdeal_cons_none _ _ _ (matchHereIdeal_re_nonquote _ _ (by decide))]
  simp [regexSearchIdeal, re_eq, matchHereIdeal]

/-- On an unlimited stack both field orders give the pair `(k, v)`. -/
theorem extractIdeal_order (k v : Str) (hk : k ≠ [])
    (hkq : ∀ c ∈ k, c ≠ '"') (hvq : ∀ c ∈ v, c ≠ '"') :
    extractIdeal
        ('\x7b' :: '"' :: 'k' :: 'e' :: 'y' :: '"' :: ':' :: '"' ::
          (k ++ '"' :: ',' :: '"' :: 'v' :: 'a' :: 'l' :: 'u' :: 'e' :: '"' :: ':' :: '"' ::
            (v ++ '"' :: '\x7d' :: [])))
      = some (k, v)
    ∧ extractIdeal
        ('\x7b' :: '"' :: 'v' :: 'a' :: 'l' :: 'u' :: 'e' :: '"' :: ':' :: '"' ::
          (v ++ '"' :: ',' :: '"' :: 'k' :: 'e' :: 'y' :: '"' :: ':' :: '"' ::
            (k ++ '"' :: '\x7d' :: [])))
      = some (k, v) := by
  constructor
  · have h : regexSearchIdeal re
        ('\x7b' :: '"' :: 'k' :: 'e' :: 'y' :: '"' :: ':' :: '"' ::
          (k ++ '"' :: ',' :: '"' :: 'v' :: 'a' :: 'l' :: 'u' :: 'e' :: '"' :: ':' :: '"' ::
            (v ++ '"' :: '\x7d' :: [])))
        = some [k, v] := by
      rw [regexSearchIdeal_cons_none _ _ _ (matchHereIdeal_re_nonquote _ _ (by decide))]
      exact regexSearchIdeal_cons_some _ _ _ _ (matchHereIdeal_re_kv k v _ hk hkq hvq)
    unfold extractIdeal
    rw [h]
  · have h2 : regexSearchIdeal re2
        ('\x7b' :: '"' :: 'v' :: 'a' :: 'l' :: 'u' :: 'e' :: '"' :: ':' :: '"' ::
          (v ++ '"' :: ',' :: '"' :: 'k' :: 'e' :: 'y' :: '"' :: ':' :: '"' ::
            (k ++ '"' :: '\x7d' :: [])))
        = some [v, k] := by
      rw [regexSearchIdeal_cons_none _ _ _
        (by rw [re2_eq]; exact matchHereIdeal_chr_ne _ _ _ _ _ (by decide))]
      exact regexSearchIdeal_cons_some _ _ _ _ (matchHereIdeal_re2_vk k v _ hk hkq hvq)
    unfold extractIdeal
    rw [regexSearchIdeal_re_vk k v hk hkq hvq, h2]

/-! ## The bounded matcher and the unlimited one -/

theorem starK_ideal {R : Type} (p : Char → Bool) (k : Nat → Str → Search R)
    (k0 : Str → Option R) (m : Nat)
    (hk : ∀ d s, m + s.length ≤ d → k d s = Search.ofOption (k0 s))
    (s : Str) (d : Nat) (h : m + 1 + s.length ≤ d) :
    starK p k d s = Search.ofOption (starKIdeal p k0 s) := by
  induction s generalizing d with
  | nil =>
    obtain ⟨e, rfl⟩ : ∃ e, d = e + 1 := ⟨d - 1, by omega⟩
    simp only [starK, starKIdeal]
    exact hk _ _ (by simp; omega)
  | cons x xs ih =>
    obtain ⟨e, rfl⟩ : ∃ e, d = e + 1 := ⟨d - 1, by omega⟩
    have hlen : m + (x :: xs).length ≤ e := by simp at h ⊢; omega
    have hrec := ih e (by simp at h; omega)
    simp only [starK, starKIdeal]
    by_cases hp : p x = true
    · simp only [hp, if_true, hrec]
      cases hi : starKIdeal p k0 xs with
      | none => simp [Search.ofOption, hk _ _ hlen]
      | some r => simp [Search.ofOption]
    · simp only [hp, Bool.false_eq_true, if_false]
      exact hk _ _ hlen

theorem groupK_ideal {R : Type} (p : Char → Bool) (k : Str → Nat → Str → Search R)
    (k0 : Str → Str → Option R) (m : Nat)
    (hk : ∀ acc d s, m + s.length ≤ d → k acc d s = Search.ofOption (k0 acc s))
    (s : Str) (acc : Str) (d : Nat) (h : m + 1 + s.length ≤ d) :
    groupK p k acc d s = Search.ofOption (groupKIdeal p k0 acc s) := by
  induction s generalizing d acc with
  | nil =>
    obtain ⟨e, rfl⟩ : ∃ e, d = e + 1 := ⟨d - 1, by omega⟩
    simp only [groupK, groupKIdeal]
    exact hk _ _ _ (by simp; omega)
  | cons x xs ih =>
    obtain ⟨e, rfl⟩ : ∃ e, d = e + 1 := ⟨d - 1, by omega⟩
    have hlen : m + (x :: xs).length ≤ e := by simp at h ⊢; omega
    have hrec := ih (acc ++ [x]) e (by simp at h; omega)
    simp only [groupK, groupKIdeal]
    by_cases hp : p x = true
    · simp only [hp, if_true, hrec]
      cases hi : groupKIdeal p k0 (acc ++ [x]) xs with
      | none => simp [Search.ofOption, hk _ _ _ hlen]
      | some r => simp [Search.ofOption]
    · simp only [hp, Bool.false_eq_true, if_false]
      exact hk _ _ _ hlen

/-- With room for one nested call per pattern element and per input
character, the bounded matcher returns what the unlimited one computes. -/
theorem matchHere_ideal (items : List Item) (caps : List Str) (d : Nat) (s : Str)
    (h : items.length + s.length ≤ d) :
    matchHere items caps d s = Search.ofOption (matchHereIdeal items caps s) := by
  induction items generalizing caps d s with
  | nil => simp [matchHere, matchHereIdeal, Search.ofOption]
  | cons it r ih =>
    cases it with
    | chr c =>
      obtain ⟨e, rfl⟩ : ∃ e, d = e + 1 := ⟨d - 1, by simp at h; omega⟩
      cases s with
      | nil => simp [matchHere, matchHereIdeal, Search.ofOption]
      | cons x xs =>
        by_cases hx : x = c
        · simp only [matchHere, matchHereIdeal, hx, if_true]
          exact ih _ _ _ (by simp at h; omega)
        · simp [matchHere, matchHereIdeal, hx, Search.ofOption]
    | star p =>
      simp only [matchHere, matchHereIdeal]
      exact starK_ideal p _ _ r.length (fun d s hd => ih caps d s hd) s d
        (by simp at h; omega)
    | capStar p =>
      simp only [matchHere, matchHereIdeal]
      exact groupK_ideal p _ _ r.length (fun acc d s hd => ih (caps ++ [acc]) d s hd) s [] d
        (by simp at h; omega)
    | capPlus p =>
      obtain ⟨e, rfl⟩ : ∃ e, d = e + 1 := ⟨d - 1, by simp at h; omega⟩
      cases s with
      | nil => simp [matchHere, matchHereIdeal, Search.ofOption]
      | cons x xs =>
        by_cases hp : p x = true
        · simp only [matchHere, matchHereIdeal, hp, if_true]
          exact groupK_ideal p _ _ r.length (fun acc d s hd => ih (caps ++ [acc]) d s hd)
            xs [x] e (by simp at h; omega)
        · simp [matchHere, matchHereIdeal, hp, Search.ofOption]

theorem regex_search_ideal (items : List Item) (stack : Nat) (s : Str)
    (h : items.length + s.length ≤ stack) :
    regex_search items stack s = Search.ofOption (regexSearchIdeal items s) := by
  induction s with
  | nil => simp only [regex_search, regexSearchIdeal]; exact matchHere_ideal _ _ _ _ h
  | cons c cs ih =>
    simp only [regex_search, regexSearchIdeal]
    rw [matchHere_ideal _ _ _ _ h]
    cases hm : matchHereIdeal items [] (c :: cs) with
    | none => simp [Search.ofOption, ih (by simp at h; omega)]
    | some r => simp [Search.ofOption]

theorem re_length : re.length = 27 := rfl

theorem re2_length : re2.length = 27 := rfl

/-- When the stack has room for 27 nested calls more than the body has
bytes, `extract_json_key_value` returns, and returns what the unlimited
matcher computes. -/
theorem extract_json_key_value_ideal (stack : Nat) (body : Str)
    (h : 27 + body.length ≤ stack) :
    extract_json_key_value stack body = Except.ok (extractIdeal body) := by
  unfold extract_json_key_value extractIdeal
  rw [regex_search_ideal re stack body (by rw [re_length]; exact h),
    regex_search_ideal re2 stack body (by rw [re2_length]; exact h)]
  cases h1 : regexSearchIdeal re body with
  | some m1 =>
    rcases m1 with _ | ⟨a, _ | ⟨b, _ | ⟨c, l⟩⟩⟩ <;>
      (cases h2 : regexSearchIdeal re2 body with
       | some m2 =>
         rcases m2 with _ | ⟨a2, _ | ⟨b2, _ | ⟨c2, l2⟩⟩⟩ <;> simp [Search.ofOption]
       | none => simp [Search.ofOption])
  | none =>
    cases h2 : regexSearchIdeal re2 body with
    | some m2 =>
      rcases m2 with _ | ⟨a2, _ | ⟨b2, _ | ⟨c2, l2⟩⟩⟩ <;> simp [Search.ofOption]
    | none => simp [Search.ofOption]

/-! ## More room never changes a search that returned -/

theorem starK_stable {R : Type} (p : Char → Bool) (k : Nat → Str → Search R)
    (hk : ∀ d e s, d ≤ e → k d s ≠ Search.overflow → k e s = k d s)
    (d e : Nat) (s : Str) (hde : d ≤ e) (h : starK p k d s ≠ Search.overflow) :
    starK p k e s = starK p k d s := by
  induction d generalizing e s with
  | zero => simp [starK] at h
  | succ d ih =>
    obtain ⟨e, rfl⟩ : ∃ e1, e = e1 + 1 := ⟨e - 1, by omega⟩
    have hde1 : d ≤ e := by omega
    cases s with
    | nil =>
      simp only [starK] at h ⊢
      exact hk _ _ _ hde1 h
    | cons x xs =>
      simp only [starK] at h ⊢
      by_cases hp : p x = true
      · simp only [hp, if_true] at h ⊢
        cases hr : starK p k d xs with
        | overflow => rw [hr] at h; simp at h
        | noMatch =>
          rw [hr] at h
          rw [ih e xs hde1 (by rw [hr]; simp), hr]
          exact hk _ _ _ hde1 h
        | matched m =>
          rw [ih e xs hde1 (by rw [hr]; simp), hr]
      · simp only [hp, Bool.false_eq_true, if_false] at h ⊢
        exact hk _ _ _ hde1 h

theorem groupK_stable {R : Type} (p : Char → Bool) (k : Str → Nat → Str → Search R)
    (hk : ∀ acc d e s, d ≤ e → k acc d s ≠ Search.overflow → k acc e s = k acc d s)
    (acc : Str) (d e : Nat) (s : Str) (hde : d ≤ e)
    (h : groupK p k acc d s ≠ Search.overflow) :
    groupK p k acc e s = groupK p k acc d s := by
  induction d generalizing e s acc with
  | zero => simp [groupK] at h
  | succ d ih =>
    obtain ⟨e, rfl⟩ : ∃ e1, e = e1 + 1 := ⟨e - 1, by omega⟩
    have hde1 : d ≤ e := by omega
    cases s with
    | nil =>
      simp only [groupK] at h ⊢
      exact hk _ _ _ _ hde1 h
    | cons x xs =>
      simp only [groupK] at h ⊢
      by_cases hp : p x = true
      · simp only [hp, if_true] at h ⊢
        cases hr : groupK p k (acc ++ [x]) d xs with
        | overflow => rw [hr] at h; simp at h
        | noMatch =>
          rw [hr] at h
          rw [ih (acc ++ [x]) e xs hde1 (by rw [hr]; simp), hr]
          exact hk _ _ _ _ hde1 h
        | matched m =>
          rw [ih (acc ++ [x]) e xs hde1 (by rw [hr]; simp), hr]
      · simp only [hp, Bool.false_eq_true, if_false] at h ⊢
        exact hk _ _ _ _ hde1 h

theorem matchHere_stable (items : List Item) (caps : List Str) (d e : Nat) (s : Str)
    (hde : d ≤ e) (h : matchHere items caps d s ≠ Search.overflow) :
    matchHere items caps e s = matchHere items caps d s := by
  induction items generalizing caps d e s with
  | nil => simp [matchHere]
  | cons it r ih =>
    cases it with
    | chr c =>
      cases d with
      | zero => simp [matchHere] at h
      | succ d =>
        obtain ⟨e, rfl⟩ : ∃ e1, e = e1 + 1 := ⟨e - 1, by omega⟩
        cases s with
        | nil => simp [matchHere]
        | cons x xs =>
          by_cases hx : x = c
          · simp only [matchHere, hx, if_true] at h ⊢
            exact ih _ _ _ _ (by omega) h
          · simp [matchHere, hx]
    | star p =>
      simp only [matchHere] at h ⊢
      exact starK_stable p _ (fun d e s hde hd => ih caps d e s hde hd) d e s hde h
    | capStar p =>
      simp only [matchHere] at h ⊢
      exact groupK_stable p _ (fun acc d e s hde hd => ih (caps ++ [acc]) d e s hde hd)
        [] d e s hde h
    | capPlus p =>
      cases d with
      | zero => simp [matchHere] at h
      | succ d =>
        obtain ⟨e, rfl⟩ : ∃ e1, e = e1 + 1 := ⟨e - 1, by omega⟩
        cases s with
        | nil => simp [matchHere]
        | cons x xs =>
          by_cases hp : p x = true
          · simp only [matchHere, hp, if_true] at h ⊢
            exact groupK_stable p _
              (fun acc d e s hde hd => ih (caps ++ [acc]) d e s hde hd)
              [x] d e xs (by omega) h
          · simp [matchHere, hp]

/-- An attempt that uses up a stack uses up every smaller one. -/
theorem matchHere_overflow_le (items : List Item) (caps : List Str) (d e : Nat) (s : Str)
    (hde : d ≤ e) (h : matchHere items caps e s = Search.overflow) :
    matchHere items caps d s = Search.overflow := by
  by_contra hne
  rw [matchHere_stable items caps d e s hde hne] at h
  exact hne h

theorem regex_search_stable (items : List Item) (d e : Nat) (s : Str) (hde : d ≤ e)
    (h : regex_search items d s ≠ Search.overflow) :
    regex_search items e s = regex_search items d s := by
  induction s with
  | nil => simp only [regex_search] at h ⊢; exact matchHere_stable _ _ _ _ _ hde h
  | cons c cs ih =>
    simp only [regex_search] at h ⊢
    cases hm : matchHere items [] d (c :: cs) with
    | overflow => rw [hm] at h; simp at h
    | noMatch =>
      rw [hm] at h
      rw [matchHere_stable _ _ _ _ _ hde (by rw [hm]; simp), hm]
      exact ih h
    | matched m =>
      rw [matchHere_stable _ _ _ _ _ hde (by rw [hm]; simp), hm]

/-- A search that returns agrees with the unlimited matcher. -/
theorem regex_search_sound (items : List Item) (d : Nat) (s : Str)
    (h : regex_search items d s ≠ Search.overflow) :
    regex_search items d s = Search.ofOption (regexSearchIdeal items s) := by
  rw [← regex_search_stable items d (d + (items.length + s.length)) s (by omega) h]
  exact regex_search_ideal _ _ _ (by omega)

/-! ## Where the stack runs out -/

theorem matchHere_chr (c : Char) (r : List Item) (caps : List Str) (d : Nat) (s : Str) :
    matchHere (Item.chr c :: r) caps (d + 1) (c :: s) = matchHere r caps d s := by
  simp [matchHere]

theorem matchHere_chr_ne (c x : Char) (r : List Item) (caps : List Str) (d : Nat) (s : Str)
    (h : x ≠ c) : matchHere (Item.chr c :: r) caps (d + 1) (x :: s) = Search.noMatch := by
  simp [matchHere, h]

theorem matchHere_star_skip (c : Char) (r : List Item) (caps : List Str) (d : Nat) (s : Str)
    (h : isspace c = false) :
    matchHere (Item.star isspace :: r) caps (d + 1) (c :: s) = matchHere r caps d (c :: s) := by
  simp [matchHere, starK, h]

/-- A run of the class at least as long as the room left uses the stack up,
whatever follows the run. -/
theorem groupK_overflow {R : Type} (p : Char → Bool) (k : Str → Nat → Str → Search R)
    (w : Str) (hw : ∀ c ∈ w, p c = true) (acc : Str) (d : Nat) (rest : Str)
    (h : d ≤ w.length) :
    groupK p k acc d (w ++ rest) = Search.overflow := by
  induction w generalizing acc d with
  | nil =>
    have : d = 0 := by simpa using h
    subst this
    cases rest <;> simp [groupK]
  | cons x w ih =>
    cases d with
    | zero => simp [groupK]
    | succ d =>
      have hx : p x = true := hw x (List.mem_cons_self _ _)
      have hw2 : ∀ c ∈ w, p c = true := fun c hc => hw c (List.mem_cons_of_mem _ hc)
      simp [groupK, hx, ih hw2 (acc ++ [x]) d (by simpa using h)]

theorem groupK_run {R : Type} (p : Char → Bool) (k : Str → Nat → Str → Search R)
    (hk : ∀ acc d x xs, p x = true → k acc (d + 1) (x :: xs) = Search.noMatch)
    (w : Str) (hw : ∀ c ∈ w, p c = true) (acc : Str) (d : Nat) (q : Char) (rest : Str)
    (hq : p q = false) :
    groupK p k acc (w.length + 1 + d) (w ++ q :: rest) = k (acc ++ w) d (q :: rest) := by
  induction w generalizing acc with
  | nil =>
    have e : ([] : Str).length + 1 + d = d + 1 := by simp; omega
    rw [e]
    simp [groupK, hq]
  | cons x w ih =>
    have hx : p x = true := hw x (List.mem_cons_self _ _)
    have hw2 : ∀ c ∈ w, p c = true := fun c hc => hw c (List.mem_cons_of_mem _ hc)
    have e : (x :: w).length + 1 + d = (w.length + 1 + d) + 1 := by simp; omega
    have e2 : w.length + 1 + d = (w.length + d) + 1 := by omega
    have hacc : acc ++ [x] ++ w = acc ++ x :: w := by simp
    rw [e]
    show groupK p k acc ((w.length + 1 + d) + 1) (x :: (w ++ q :: rest)) = _
    rw [groupK]
    simp only [hx, if_true]
    rw [ih hw2 (acc ++ [x]), hacc]
    cases hr : k (acc ++ x :: w) d (q :: rest) with
    | noMatch =>
      simp only []
      rw [e2]
      exact hk _ _ _ _ hx
    | overflow => rfl
    | matched m => rfl

theorem matchHere_capPlus (r : List Item) (caps : List Str) (w rest : Str) (d : Nat)
    (hne : w ≠ []) (hw : ∀ c ∈ w, c ≠ '"') :
    matchHere (Item.capPlus notQuote :: Item.chr '"' :: r) caps (w.length + 2 + d)
        (w ++ '"' :: rest)
      = matchHere r (caps ++ [w]) d rest := by
  obtain ⟨x, xs, rfl⟩ : ∃ x xs, w = x :: xs := by
    cases w with
    | nil => exact absurd rfl hne
    | cons x xs => exact ⟨x, xs, rfl⟩
  have hx : notQuote x = true := notQuote_of_ne _ hw x (List.mem_cons_self _ _)
  have hxs : ∀ c ∈ xs, notQuote c = true :=
    fun c hc => notQuote_of_ne _ hw c (List.mem_cons_of_mem _ hc)
  have hrun := groupK_run notQuote
    (fun cap d1 rest => matchHere (Item.chr '"' :: r) (caps ++ [cap]) d1 rest)
    (by
      intro acc d1 y ys hy
      have : y ≠ '"' := by simpa [notQuote] using hy
      simp [matchHere, this])
    xs hxs [x] (d + 1) '"' rest (by simp [notQuote])
  have e : (x :: xs).length + 2 + d = (xs.length + 1 + (d + 1)) + 1 := by simp; omega
  rw [e]
  simp only [matchHere, List.cons_append, hx, if_true] at hrun ⊢
  rw [hrun]
  simp

theorem matchHere_capStar_overflow (r : List Item) (caps : List Str) (w rest : Str) (d : Nat)
    (hw : ∀ c ∈ w, c ≠ '"') (h : d ≤ w.length) :
    matchHere (Item.capStar notQuote :: r) caps d (w ++ rest) = Search.overflow := by
  simp only [matchHere]
  exact groupK_overflow notQuote _ w (notQuote_of_ne w hw) [] d rest h

/-- The first pattern on `"key":"k","value":"v"` uses the stack up inside the
value when the room is the length of the value and what the pattern needs to
get there. -/
theorem matchHere_re_kv_overflow (k v rest : Str) (hk : k ≠ []) (hkq : ∀ c ∈ k, c ≠ '"')
    (hvq : ∀ c ∈ v, c ≠ '"') :
    matchHere re [] (k.length + 2 + (v.length + 14) + 9)
      ('"' :: 'k' :: 'e' :: 'y' :: '"' :: ':' :: '"' ::
        (k ++ '"' :: ',' :: '"' :: 'v' :: 'a' :: 'l' :: 'u' :: 'e' :: '"' :: ':' :: '"' ::
          (v ++ rest)))
      = Search.overflow := by
  rw [re_eq]
  simp only [matchHere_chr, matchHere_star_skip _ _ _ _ _ isspace_colon,
    matchHere_star_skip _ _ _ _ _ isspace_quote]
  rw [matchHere_capPlus _ _ k _ _ hk hkq]
  simp only [matchHere_chr, matchHere_star_skip _ _ _ _ _ isspace_colon,
    matchHere_star_skip _ _ _ _ _ isspace_quote, matchHere_star_skip _ _ _ _ _ isspace_comma]
  exact matchHere_capStar_overflow _ _ v rest _ hvq (le_refl _)

/-- The second pattern on `"value":"v"` uses the stack up inside the value
when the room is the length of the value and what the pattern needs to get
there. -/
theorem matchHere_re2_vk_overflow (v rest : Str) (hvq : ∀ c ∈ v, c ≠ '"') :
    matchHere re2 [] (v.length + 11)
      ('"' :: 'v' :: 'a' :: 'l' :: 'u' :: 'e' :: '"' :: ':' :: '"' :: (v ++ rest))
      = Search.overflow := by
  rw [re2_eq]
  simp only [matchHere_chr, matchHere_star_skip _ _ _ _ _ isspace_colon,
    matchHere_star_skip _ _ _ _ _ isspace_quote]
  exact matchHere_capStar_overflow _ _ v rest _ hvq (le_refl _)

theorem matchHere_zero (c : Char) (r : List Item) (caps : List Str) (s : Str) :
    matchHere (Item.chr c :: r) caps 0 s = Search.overflow := by
  simp [matchHere]

/-- A value at least as long as the room on the stack, in the order key then
value: the search with the first pattern does not return. -/
theorem regex_search_re_kv_overflow (stack : Nat) (k v : Str) (hk : k ≠ [])
    (hkq : ∀ c ∈ k, c ≠ '"') (hvq : ∀ c ∈ v, c ≠ '"') (h : stack ≤ v.length) :
    regex_search re stack
      ('\x7b' :: '"' :: 'k' :: 'e' :: 'y' :: '"' :: ':' :: '"' ::
        (k ++ '"' :: ',' :: '"' :: 'v' :: 'a' :: 'l' :: 'u' :: 'e' :: '"' :: ':' :: '"' ::
          (v ++ '"' :: '\x7d' :: [])))
      = Search.overflow := by
  cases stack with
  | zero => simp [regex_search, re_eq, matchHere]
  | succ d =>
    have h0 : matchHere re [] (d + 1)
        ('\x7b' :: '"' :: 'k' :: 'e' :: 'y' :: '"' :: ':' :: '"' ::
          (k ++ '"' :: ',' :: '"' :: 'v' :: 'a' :: 'l' :: 'u' :: 'e' :: '"' :: ':' :: '"' ::
            (v ++ '"' :: '\x7d' :: []))) = Search.noMatch := by
      rw [re_eq]; exact matchHere_chr_ne _ _ _ _ _ _ (by decide)
    have h1 := matchHere_overflow_le re [] (d + 1) _ _ (by omega)
      (matchHere_re_kv_overflow k v ('"' :: '\x7d' :: []) hk hkq hvq)
    rw [regex_search, h0]
    simp only []
    rw [regex_search, h1]

/-- A value at least as long as the room on the stack, in the order value
then key: the search with the second pattern does not return. -/
theorem regex_search_re2_vk_overflow (stack : Nat) (v rest : Str)
    (hvq : ∀ c ∈ v, c ≠ '"') (h : stack ≤ v.length) :
    regex_search re2 stack
      ('\x7b' :: '"' :: 'v' :: 'a' :: 'l' :: 'u' :: 'e' :: '"' :: ':' :: '"' :: (v ++ rest))
      = Search.overflow := by
  cases stack with
  | zero => simp [regex_search, re2_eq, matchHere]
  | succ d =>
    have h0 : matchHere re2 [] (d + 1)
        ('\x7b' :: '"' :: 'v' :: 'a' :: 'l' :: 'u' :: 'e' :: '"' :: ':' :: '"' :: (v ++ rest))
        = Search.noMatch := by
      rw [re2_eq]; exact matchHere_chr_ne _ _ _ _ _ _ (by decide)
    have h1 := matchHere_overflow_le re2 [] (d + 1) _ _ (by omega)
      (matchHere_re2_vk_overflow v rest hvq)
    rw [regex_search, h0]
    simp only []
    rw [regex_search, h1]

/-- A value at least as long as the room on the stack makes
`extract_json_key_value` end the process, in either field order. -/
theorem extract_json_key_value_overflow (stack : Nat) (k v : Str) (hk : k ≠ [])
    (hkq : ∀ c ∈ k, c ≠ '"') (hvq : ∀ c ∈ v, c ≠ '"') (h : stack ≤ v.length) :
    extract_json_key_value stack
        ("\x7b\"key\":\"".data ++ k ++ "\",\"value\":\"".data ++ v ++ "\"\x7d".data)
      = Except.error Exn.stack_overflow
    ∧ extract_json_key_value stack
        ("\x7b\"value\":\"".data ++ v ++ "\",\"key\":\"".data ++ k ++ "\"\x7d".data)
      = Except.error Exn.stack_overflow := by
  simp only [String.data, List.cons_append, List.nil_append, List.append_assoc]
  constructor
  · unfold extract_json_key_value
    rw [regex_search_re_kv_overflow stack k v hk hkq hvq h]
  · unfold extract_json_key_value
    by_cases h1 : regex_search re stack
        ('\x7b' :: '"' :: 'v' :: 'a' :: 'l' :: 'u' :: 'e' :: '"' :: ':' :: '"' ::
          (v ++ '"' :: ',' :: '"' :: 'k' :: 'e' :: 'y' :: '"' :: ':' :: '"' ::
            (k ++ '"' :: '\x7d' :: []))) = Search.overflow
    · rw [h1]
    · rw [regex_search_sound re stack _ h1, regexSearchIdeal_re_vk k v hk hkq hvq,
        regex_search_re2_vk_overflow stack v _ hvq h]
      rfl

/-- With room for 60 nested calls more than the key and the value have
bytes, `extract_json_key_value` returns the pair `(k, v)` for both field
orders. -/
theorem extract_json_key_value_order (stack : Nat) (k v : Str) (hk : k ≠ [])
    (hkq : ∀ c ∈ k, c ≠ '"') (hvq : ∀ c ∈ v, c ≠ '"')
    (h : k.length + v.length + 60 ≤ stack) :
    extract_json_key_value stack
        ("\x7b\"key\":\"".data ++ k ++ "\",\"value\":\"".data ++ v ++ "\"\x7d".data)
      = Except.ok (some (k, v))
    ∧ extract_json_key_value stack
        ("\x7b\"value\":\"".data ++ v ++ "\",\"key\":\"".data ++ k ++ "\"\x7d".data)
      = Except.ok (some (k, v)) := by
  simp only [String.data, List.cons_append, List.nil_append, List.append_assoc]
  constructor
  · rw [extract_json_key_value_ideal stack _ (by simp; omega),
      (extractIdeal_order k v hk hkq hvq).1]
  · rw [extract_json_key_value_ideal stack _ (by simp; omega),
      (extractIdeal_order k v hk hkq hvq).2]


/-- C4, what the code does on a long value: whatever room the stack has for
nested matcher calls, a value of that many bytes makes
`extract_json_key_value` use it up, in the order key then value and in the
order value then key, so that neither call returns a pair.  (Within the room
both orders give the same pair: `extract_json_key_value_order`.) -/
theorem extract_json_key_value_long_value (stack : Nat) :
    extract_json_key_value stack
        ("\x7b\"key\":\"".data ++ "x".data ++ "\",\"value\":\"".data
          ++ List.replicate stack 'a' ++ "\"\x7d".data)
      = Except.error Exn.stack_overflow
    ∧ extract_json_key_value stack
        ("\x7b\"value\":\"".data ++ List.replicate stack 'a' ++ "\",\"key\":\"".data
          ++ "x".data ++ "\"\x7d".data)
      = Except.error Exn.stack_overflow :=
  extract_json_key_value_overflow stack "x".data (List.replicate stack 'a') (by decide)
    (by decide)
    (by
      intro c hc
      rw [List.eq_of_mem_replicate hc]
      decide)
    (by simp)

/-- C2, what the code does on a long value: on the path `/kv`, a body whose
value has as many bytes as the stack has room for nested matcher calls ends
the process inside `extract_json_key_value`: no answer is written and neither
the cache nor the store is called.  (When the extraction returns, the handler
does what the claim says: `handlePOST_returns`.) -/
theorem handlePOST_long_value (stack : Nat) (D : Database σ) (s : Server σ) :
    handlePOST stack D "/kv".data
        ("\x7b\"key\":\"".data ++ "x".data ++ "\",\"value\":\"".data
          ++ List.replicate stack 'a' ++ "\"\x7d".data) s
      = Except.error Exn.stack_overflow := by
  have h := (extract_json_key_value_overflow stack "x".data (List.replicate stack 'a')
    (by decide) (by decide)
    (by
      intro c hc
      rw [List.eq_of_mem_replicate hc]
      decide)
    (by simp)).1
  unfold handlePOST
  rw [h]
  rfl

/-! ## `handleClient` -/

/-- The header loop, one `readLine` at a time, as it is written in
`handleClient`: a failed `readLine` ends it, an empty line is the `break`, and
any other line updates `content_len` and goes round again. -/
theorem headerLoop_readLine (content_len : Nat) (acc input : Str) :
    headerLoop content_len acc input =
      match readLineAux acc input with
      | none => Except.ok none
      | some (line, rest) =>
        if line.isEmpty then Except.ok (some (content_len, rest))
        else
          match headerLine line content_len with
          | Except.error e => Except.error e
          | Except.ok cl => headerLoop cl [] rest := by
  induction input generalizing acc with
  | nil => simp [headerLoop, readLineAux]
  | cons c rest ih =>
    rw [headerLoop, readLineAux]
    by_cases h1 : c = '\r'
    · simp only [h1, if_true]; exact ih acc
    · by_cases h2 : c = '\n'
      · subst h2
        have hne : ('\n' = '\r') = False := by decide
        simp only [hne, if_true, if_false]
      · simp only [h1, h2, if_false]; exact ih (acc ++ [c])

/-- C6, as the code has it: when the request line has no method token or no
path token, `handleClient` closes the connection and does nothing else: no
response is written, the headers are not read, and neither the cache nor the
store is called. -/
theorem malformed_request_line_closes (D : Database σ) (maxSize stack : Nat) (s : Server σ)
    (line rest : Str) (hline : readLine s.input = some (line, rest))
    (hbad : (requestLine line).1 = [] ∨ (requestLine line).2.1 = []) :
    handleClient D maxSize stack s = Except.ok { s with input := rest, closed := true } := by
  unfold handleClient
  rw [hline]
  have : ((requestLine line).1.isEmpty || (requestLine line).2.1.isEmpty) = true := by
    rcases hbad with h | h <;> simp [h]
  simp [this, Server.closeFd]

/-- Witness of C6 as amended: the request line `GET`, a single word. -/
theorem malformed_request_line_closes_witness :
    readLine (conn 2 [] [] false "GET\r\n\r\n".data).input = some ("GET".data, "\r\n".data)
    ∧ ((requestLine "GET".data).1 = [] ∨ (requestLine "GET".data).2.1 = [])
    ∧ handleClient memDb 4096 4096 (conn 2 [] [] false "GET\r\n\r\n".data)
        = Except.ok { conn 2 [] [] false "GET\r\n\r\n".data with
            input := "\r\n".data, closed := true } :=
  ⟨by decide, Or.inr (by decide),
   malformed_request_line_closes memDb 4096 4096 (conn 2 [] [] false "GET\r\n\r\n".data)
     "GET".data "\r\n".data (by decide) (Or.inr (by decide))⟩

/-- C6 as stated fails: on the request line `GET` (no path token) nothing is
written before the connection is closed, so no 404 is sent. -/
theorem malformed_request_line_counterexample :
    (requestLine "GET".data).2.1 = []
    ∧ handleClient memDb 4096 4096 (conn 2 [] [] false "GET\r\n\r\n".data)
        = Except.ok { cache_ := { capacity := 2, entries := [] },
                      db_ := { rows := [], failing := false },
                      trace := [], input := "\r\n".data, sent := [], closed := true }
    ∧ http_empty 404 ∉ ([] : List Str) :=
  ⟨by decide, rfl, by simp⟩

/-- C7: when the request line has a method and a path and the headers are read
to the blank line, a method other than `GET`, `POST` and `DELETE` (compared
byte for byte) gets the 405 response, whose `Content-Length` is 0, whatever
the path is; no body is read and neither the cache nor the store is called. -/
theorem unsupported_method_405 (D : Database σ) (maxSize stack : Nat) (s : Server σ)
    (line rest rest2 : Str) (content_len : Nat)
    (hline : readLine s.input = some (line, rest))
    (hm : (requestLine line).1 ≠ []) (hp : (requestLine line).2.1 ≠ [])
    (hh : headerLoop 0 [] rest = Except.ok (some (content_len, rest2)))
    (hget : (requestLine line).1 ≠ "GET".data)
    (hpost : (requestLine line).1 ≠ "POST".data)
    (hdel : (requestLine line).1 ≠ "DELETE".data) :
    handleClient D maxSize stack s
      = Except.ok { s with input := rest2, sent := s.sent ++ [http_405], closed := true }
    ∧ frame http_405 = some ("HTTP/1.1 405 Method Not Allowed".data, 0, []) := by
  refine ⟨?_, by decide⟩
  unfold handleClient
  rw [hline]
  have h1 : (requestLine line).1.isEmpty = false := by
    cases h : (requestLine line).1 <;> simp_all
  have h2 : (requestLine line).2.1.isEmpty = false := by
    cases h : (requestLine line).2.1 <;> simp_all
  have e1 : ((requestLine line).1 == "GET".data) = false := by simpa using hget
  have e2 : ((requestLine line).1 == "POST".data) = false := by simpa using hpost
  have e3 : ((requestLine line).1 == "DELETE".data) = false := by simpa using hdel
  simp only [h1, h2, hh, e2, Bool.or_self, Bool.false_and, Bool.false_eq_true, if_false,
    dispatch, e1, e3, Server.writeAll, Server.closeFd]

/-- Witness of C7: `get /kv/x` in lower case, with a `Content-Length` header. -/
theorem unsupported_method_405_witness :
    handleClient memDb 4096 4096
        (conn 2 [] [] false "get /kv/x HTTP/1.1\r\nContent-Length: 3\r\n\r\nabc".data)
      = Except.ok { conn 2 [] [] false "abc".data with sent := [http_405], closed := true }
    ∧ frame http_405 = some ("HTTP/1.1 405 Method Not Allowed".data, 0, []) :=
  unsupported_method_405 memDb 4096 4096
    (conn 2 [] [] false "get /kv/x HTTP/1.1\r\nContent-Length: 3\r\n\r\nabc".data)
    "get /kv/x HTTP/1.1".data "Content-Length: 3\r\n\r\nabc".data "abc".data 3
    (by decide) (by decide) (by decide) rfl (by decide) (by decide) (by decide)

/-- C5, what the code does: a `POST` whose `Content-Length` value has no digit
(`abc`, or nothing at all) makes `std::stoul` throw `std::invalid_argument`
inside the header loop, and a negative value (`-5`) wraps to a length above
`max_size()`, so that `body.resize` throws `std::length_error`.  Nothing
catches either, so `handleClient` does not finish and `handlePOST` is never
reached. -/
theorem content_length_invalid_throws (D : Database σ) (maxSize stack : Nat)
    (s : Server σ) :
    handleClient D maxSize stack
        { s with input := "POST /kv HTTP/1.1\r\nContent-Length: abc\r\n\r\n".data }
      = Except.error Exn.invalid_argument
    ∧ handleClient D maxSize stack
        { s with input := "POST /kv HTTP/1.1\r\nContent-Length:\r\n\r\n".data }
      = Except.error Exn.invalid_argument
    ∧ handleClient D (2 ^ 63 - 1) stack
        { s with input := "POST /kv HTTP/1.1\r\nContent-Length: -5\r\n\r\n".data }
      = Except.error Exn.length_error :=
  ⟨rfl, rfl, rfl⟩

/-- The half of C5 that holds: when the header loop ends with `content_len`
still 0 (no usable `Content-Length`), a `POST` reads no body byte and
`handlePOST` gets the empty body. -/
theorem post_without_length (D : Database σ) (maxSize stack : Nat) (s : Server σ)
    (line rest rest2 : Str) (hline : readLine s.input = some (line, rest))
    (hm : (requestLine line).1 = "POST".data) (hp : (requestLine line).2.1 ≠ [])
    (hh : headerLoop 0 [] rest = Except.ok (some (0, rest2))) :
    handleClient D maxSize stack s
      = match handlePOST stack D (requestLine line).2.1 [] { s with input := rest2 } with
        | Except.error e => Except.error e
        | Except.ok s1 => Except.ok s1.closeFd := by
  unfold handleClient
  rw [hline]
  have h2 : (requestLine line).2.1.isEmpty = false := by
    cases h : (requestLine line).2.1 <;> simp_all
  simp [hm, h2, hh, dispatch]

/-! ## The dispatcher during shutdown -/

/-- C10, as the code has it: with `running_` false, a worker at the top of its
loop returns and a worker inside `handleClient` finishes, both leaving the
queue as it is; a worker at the wait returns when the queue is empty, and
otherwise still pops the front connection (and handles it when it is a valid
descriptor); the drain of `stop()` closes exactly the connections that are
still queued when it runs and leaves the queue empty. -/
theorem worker_steps_after_stop (d : Dispatcher) (h : d.running_ = false) :
    workerStep d WorkerPc.loopHead = some (d, WorkerPc.exited)
    ∧ (∀ fd, workerStep d (WorkerPc.handling fd) = some (d, WorkerPc.loopHead))
    ∧ (d.connq_ = [] → workerStep d WorkerPc.waiting = some (d, WorkerPc.exited))
    ∧ (∀ fd rest, d.connq_ = fd :: rest →
        workerStep d WorkerPc.waiting
          = some ({ d with connq_ := rest },
              if fd ≥ 0 then WorkerPc.handling fd else WorkerPc.loopHead))
    ∧ stopDrain d = (d.connq_, { d with connq_ := [] }) := by
  refine ⟨by simp [workerStep, h], fun fd => by simp [workerStep], ?_, ?_, rfl⟩
  · intro hq
    simp [workerStep, h, hq]
  · intro fd rest hq
    simp [workerStep, h, hq]

/-- Witness of C10 as amended: shutdown has begun and connection 7 is still
queued. -/
theorem worker_steps_after_stop_witness :
    ({ running_ := false, connq_ := [7] } : Dispatcher).running_ = false
    ∧ workerStep { running_ := false, connq_ := [7] } WorkerPc.waiting
        = some ({ running_ := false, connq_ := [] }, WorkerPc.handling 7)
    ∧ stopDrain { running_ := false, connq_ := [7] }
        = ([7], { running_ := false, connq_ := [] }) :=
  ⟨rfl,
   (worker_steps_after_stop { running_ := false, connq_ := [7] } rfl).2.2.2.1 7 [] rfl,
   (worker_steps_after_stop { running_ := false, connq_ := [7] } rfl).2.2.2.2⟩

/-- C10 as stated fails.  From the start state a worker reaches the wait, the
acceptor queues connection 7, `stop()` clears `running_`, and the next step
of the worker, taken with `running_` false, pops connection 7 and hands it to
`handleClient`; the drain of `stop()` then finds the queue empty and closes
nothing. -/
theorem worker_dequeues_after_stop_counterexample :
    workerStep { running_ := true, connq_ := [] } WorkerPc.loopHead
      = some ({ running_ := true, connq_ := [] }, WorkerPc.waiting)
    ∧ acceptStep 7 { running_ := true, connq_ := [] }
      = some { running_ := true, connq_ := [7] }
    ∧ stopBegin { running_ := true, connq_ := [7] }
      = (true, { running_ := false, connq_ := [7] })
    ∧ workerStep { running_ := false, connq_ := [7] } WorkerPc.waiting
      = some ({ running_ := false, connq_ := [] }, WorkerPc.handling 7)
    ∧ ({ running_ := false, connq_ := [] } : Dispatcher).connq_
      ≠ ({ running_ := false, connq_ := [7] } : Dispatcher).connq_
    ∧ stopDrain { running_ := false, connq_ := [] }
      = ([], { running_ := false, connq_ := [] }) := by
  decide

end KV
